import Mathlib

set_option maxRecDepth 8000

/-!
Verification of the ikurabot core against its natural-language specification.

Each section shallowly embeds one subsystem of the C++ source:

* source/interp/type.cpp        : the dynamic type descriptors, structural
  equality (is_same) and the cast-distance function (get_cast_dist);
* source/interp/builtin.cpp     : overload resolution (FunctionOverloadSet, run);
* source/misc/util.cpp          : the timestamp helper;
* source/commands/lexer.cpp     : the command-language lexer;
* source/backends/twitch/message.cpp : outbound message splitting (sendMessage);
* source/markov/markov.cpp      : the Markov training update (process_one);
* source/datastore/database.cpp : the database superblock codec, serialise,
  deserialise and load.

Machine integers are modelled as Nat with explicit reduction modulo 2 ^ w at
the points where the C++ type forces a width.  Fallible operations return
Option or Except.  Headers of the repository that are not part of src
(serialise.h, db.h, defs.h) are modelled from the specification; every such
definition carries a doc comment saying so.
-/

namespace Ikura

/-! ## source/interp/type.cpp -/

namespace Interp

/-- Type descriptors, from interp.h usage in type.cpp: one of void, bool,
char, int, double, list(T), map(K,V), function(ret, args). -/
inductive Ty where
  | void : Ty
  | bool : Ty
  | char : Ty
  | int : Ty
  | double : Ty
  | list (elm : Ty) : Ty
  | map (key elm : Ty) : Ty
  | fn (ret : Ty) (args : List Ty) : Ty
deriving Repr

/-- The discriminant of the underlying enum (the value of the C++ field
holding the kind tag); only pairwise distinctness of the values is used. -/
def Ty.tag : Ty → Nat
  | .void => 0
  | .bool => 1
  | .char => 2
  | .int => 3
  | .double => 4
  | .list _ => 5
  | .map _ _ => 6
  | .fn _ _ => 7

def Ty.is_map : Ty → Bool
  | .map _ _ => true
  | _ => false

def Ty.is_void : Ty → Bool
  | .void => true
  | _ => false

def Ty.is_list : Ty → Bool
  | .list _ => true
  | _ => false

def Ty.is_double : Ty → Bool
  | .double => true
  | _ => false

def Ty.is_integer : Ty → Bool
  | .int => true
  | _ => false

/-- The element-type field; in the C++ it is only read behind is_list and
is_map guards, so the value on the other constructors is immaterial. -/
def Ty.elm_type : Ty → Ty
  | .list e => e
  | .map _ e => e
  | _ => .void

/-- The key-type field; only read behind an is_map guard. -/
def Ty.key_type : Ty → Ty
  | .map k _ => k
  | _ => .void

mutual

/-- Ty.is_same from type.cpp lines 58 to 83: lists compare element types,
maps compare element then key types, functions compare return type, arity
and argument types pointwise, everything else compares the kind tags. -/
def Ty.is_same : Ty → Ty → Bool
  | .list a, .list b => Ty.is_same a b
  | .map k v, .map k2 v2 => Ty.is_same v v2 && Ty.is_same k k2
  | .fn r as, .fn r2 as2 =>
      Ty.is_same r r2 && (as.length == as2.length) && Ty.is_same_args as as2
  | a, b => a.tag == b.tag

/-- The pointwise loop over argument types inside is_same; it only runs
after the arity check has passed, so both lists have the same length. -/
def Ty.is_same_args : List Ty → List Ty → Bool
  | [], [] => true
  | a :: as, b :: bs => Ty.is_same a b && Ty.is_same_args as bs
  | _, _ => false

end

/-- Ty.get_cast_dist from type.cpp lines 22 to 56: 0 on is_same, 1 for
int to double, 2 for a concrete list to a list of void, the three ordered
map branches, and -1 everywhere else. -/
def Ty.get_cast_dist (a b : Ty) : Int :=
  if a.is_same b then 0
  else if a.is_integer && b.is_double then 1
  else if a.is_list && b.is_list then
    (if b.elm_type.is_void then 2 else -1)
  else if a.is_map && b.is_map then
    (if a.key_type.is_same b.key_type && b.elm_type.is_void then 2
     else if a.elm_type.is_same b.elm_type && b.key_type.is_void then 2
     else if b.key_type.is_void && b.elm_type.is_void then 3
     else -1)
  else -1

theorem Ty.is_same_iff (a b : Ty) : Ty.is_same a b = true ↔ a = b := by
  refine Ty.is_same.induct
    (fun a b => Ty.is_same a b = true ↔ a = b)
    (fun as bs => Ty.is_same_args as bs = true ↔ as = bs)
    ?_ ?_ ?_ ?_ ?_ ?_ ?_ a b
  · intro a b ih
    simp [Ty.is_same, ih]
  · intro k v k2 v2 ihv ihk
    simp only [Ty.is_same, Bool.and_eq_true, ihv, ihk, Ty.map.injEq]
    tauto
  · intro r as r2 as2 ihr ihas
    simp only [Ty.is_same, Bool.and_eq_true, ihr, ihas, Ty.fn.injEq, beq_iff_eq]
    constructor
    · rintro ⟨⟨h1, _⟩, h3⟩
      exact ⟨h1, h3⟩
    · rintro ⟨h1, h3⟩
      exact ⟨⟨h1, by rw [h3]⟩, h3⟩
  · intro a b h1 h2 h3
    cases a <;> cases b <;>
      first
        | (exfalso; exact h1 _ _ rfl rfl)
        | (exfalso; exact h2 _ _ _ _ rfl rfl)
        | (exfalso; exact h3 _ _ _ _ rfl rfl)
        | simp [Ty.is_same.eq_def, Ty.tag]
  · simp [Ty.is_same_args]
  · intro a as b bs ih ihs
    simp [Ty.is_same_args, ih, ihs]
  · intro t x h1 h2
    match t, x with
    | [], [] => exact (h1 rfl rfl).elim
    | [], _ :: _ => simp [Ty.is_same_args]
    | _ :: _, [] => simp [Ty.is_same_args]
    | a :: as, b :: bs => exact (h2 a as b bs rfl rfl).elim

instance : DecidableEq Ty :=
  fun a b => decidable_of_iff (Ty.is_same a b = true) (Ty.is_same_iff a b)

theorem Ty.is_same_eq_decide (a b : Ty) : Ty.is_same a b = decide (a = b) := by
  by_cases h : a = b
  · subst h
    simp [(Ty.is_same_iff a a).mpr rfl]
  · rw [decide_eq_false h, ← Bool.not_eq_true, Ty.is_same_iff]
    exact h

theorem Ty.is_void_eq_decide (t : Ty) : t.is_void = decide (t = .void) := by
  cases t <;> simp [Ty.is_void]

theorem Ty.is_void_iff (t : Ty) : t.is_void = true ↔ t = .void := by
  cases t <;> simp [Ty.is_void]

theorem Ty.get_cast_dist_list_list (t e : Ty) :
    Ty.get_cast_dist (.list t) (.list e) =
      if t = e then 0 else if e = .void then 2 else -1 := by
  simp only [Ty.get_cast_dist, Ty.is_same_iff, Bool.and_eq_true, Ty.is_integer,
    Ty.is_double, Ty.is_list, Ty.is_map, Ty.elm_type, Ty.key_type, Ty.is_void_iff,
    Ty.list.injEq]
  split_ifs <;> first | rfl | simp_all

theorem Ty.get_cast_dist_map_map (k v k2 v2 : Ty) :
    Ty.get_cast_dist (.map k v) (.map k2 v2) =
      if k = k2 ∧ v = v2 then 0
      else if k = k2 ∧ v2 = .void then 2
      else if v = v2 ∧ k2 = .void then 2
      else if k2 = .void ∧ v2 = .void then 3
      else -1 := by
  simp only [Ty.get_cast_dist, Ty.is_same_iff, Bool.and_eq_true, Ty.is_integer,
    Ty.is_double, Ty.is_list, Ty.is_map, Ty.elm_type, Ty.key_type, Ty.is_void_iff,
    Ty.map.injEq]
  split_ifs <;> first | rfl | simp_all

theorem Ty.get_cast_dist_eq_zero_iff (a b : Ty) : Ty.get_cast_dist a b = 0 ↔ a = b := by
  by_cases h : a = b
  · subst h
    simp [Ty.get_cast_dist, (Ty.is_same_iff a a).mpr rfl]
  · have hs : Ty.is_same a b = false := by
      rw [← Bool.not_eq_true, Ty.is_same_iff]
      exact h
    simp only [Ty.get_cast_dist, hs, Bool.false_eq_true, if_false, h, iff_false]
    split_ifs <;> norm_num

set_option maxHeartbeats 1000000 in
theorem Ty.get_cast_dist_eq_one_iff (a b : Ty) :
    Ty.get_cast_dist a b = 1 ↔ (a = .int ∧ b = .double) := by
  cases a <;> cases b <;>
    simp only [Ty.get_cast_dist, Ty.is_same_iff, Bool.and_eq_true, Ty.is_integer,
      Ty.is_double, Ty.is_list, Ty.is_map, Ty.elm_type, Ty.key_type, Ty.is_void_iff,
      Ty.list.injEq, Ty.map.injEq, Ty.fn.injEq] <;>
    split_ifs <;> simp_all

set_option maxHeartbeats 1000000 in
theorem Ty.get_cast_dist_eq_two_iff (a b : Ty) :
    Ty.get_cast_dist a b = 2 ↔
      ((∃ t, t ≠ .void ∧ a = .list t ∧ b = .list .void) ∨
       (∃ k v, v ≠ .void ∧ a = .map k v ∧ b = .map k .void) ∨
       (∃ k v, k ≠ .void ∧ a = .map k v ∧ b = .map .void v)) := by
  cases a <;> cases b <;>
    simp only [Ty.get_cast_dist, Ty.is_same_iff, Bool.and_eq_true, Ty.is_integer,
      Ty.is_double, Ty.is_list, Ty.is_map, Ty.elm_type, Ty.key_type, Ty.is_void_iff,
      Ty.list.injEq, Ty.map.injEq, Ty.fn.injEq, reduceCtorEq, false_and, and_false,
      exists_const, exists_false, or_self, iff_false, ne_eq] <;>
    split_ifs <;> simp_all [eq_comm] <;>
      first
        | (refine ⟨_, _, ?_, ⟨rfl, rfl⟩, rfl⟩; assumption)
        | (intro x y hy hk he; subst hk; assumption)

set_option maxHeartbeats 1000000 in
theorem Ty.get_cast_dist_eq_three_iff (a b : Ty) :
    Ty.get_cast_dist a b = 3 ↔
      (∃ k v, k ≠ .void ∧ v ≠ .void ∧ a = .map k v ∧ b = .map .void .void) := by
  cases a <;> cases b <;>
    simp only [Ty.get_cast_dist, Ty.is_same_iff, Bool.and_eq_true, Ty.is_integer,
      Ty.is_double, Ty.is_list, Ty.is_map, Ty.elm_type, Ty.key_type, Ty.is_void_iff,
      Ty.list.injEq, Ty.map.injEq, Ty.fn.injEq, reduceCtorEq, false_and, and_false,
      exists_const, exists_false, or_self, iff_false, ne_eq] <;>
    split_ifs <;> simp_all [eq_comm]

theorem Ty.get_cast_dist_mem (a b : Ty) :
    Ty.get_cast_dist a b = 0 ∨ Ty.get_cast_dist a b = 1 ∨ Ty.get_cast_dist a b = 2 ∨
      Ty.get_cast_dist a b = 3 ∨ Ty.get_cast_dist a b = -1 := by
  unfold Ty.get_cast_dist
  split_ifs <;> norm_num

/-- Claim C5 counterexample: the claim assigns distance 3 to every cast of the
form map(K,V) to map(void,void), but at K = void, V = int the code takes the
first map branch (key types agree, target element type is void) and returns 2,
not 3. -/
theorem Ty.claim_c5_counterexample :
    Ty.get_cast_dist (.map .void .int) (.map .void .void) = 2 ∧ (2 : Int) ≠ 3 := by
  constructor
  · rw [Ty.get_cast_dist_map_map]
    simp
  · norm_num

/-- Claim C5 (amended): get_cast_dist returns 0 exactly on structurally equal
types (so is_same holds iff the distance is 0); 1 exactly for int to double;
2 exactly for list(T) to list(void) with T not void, for map(K,V) to
map(K,void) with V not void, and for map(K,V) to map(void,V) with K not void;
3 exactly for map(K,V) to map(void,void) with K and V both not void; and -1
in every other case (the five listed values are the only possible results).
The branches are tested in the order written in the source, so the first
matching rule decides; this is what the counterexample forces: at K = void
the map(void,void) target already matches an earlier rule with distance 2. -/
theorem Ty.claim_c5_cast_dist_characterisation (a b : Ty) :
    (Ty.get_cast_dist a b = 0 ↔ a = b) ∧
    (Ty.is_same a b = true ↔ Ty.get_cast_dist a b = 0) ∧
    (Ty.get_cast_dist a b = 1 ↔ (a = .int ∧ b = .double)) ∧
    (Ty.get_cast_dist a b = 2 ↔
      ((∃ t, t ≠ .void ∧ a = .list t ∧ b = .list .void) ∨
       (∃ k v, v ≠ .void ∧ a = .map k v ∧ b = .map k .void) ∨
       (∃ k v, k ≠ .void ∧ a = .map k v ∧ b = .map .void v))) ∧
    (Ty.get_cast_dist a b = 3 ↔
      (∃ k v, k ≠ .void ∧ v ≠ .void ∧ a = .map k v ∧ b = .map .void .void)) ∧
    (Ty.get_cast_dist a b = 0 ∨ Ty.get_cast_dist a b = 1 ∨ Ty.get_cast_dist a b = 2 ∨
      Ty.get_cast_dist a b = 3 ∨ Ty.get_cast_dist a b = -1) := by
  refine ⟨Ty.get_cast_dist_eq_zero_iff a b, ?_, Ty.get_cast_dist_eq_one_iff a b,
    Ty.get_cast_dist_eq_two_iff a b, Ty.get_cast_dist_eq_three_iff a b,
    Ty.get_cast_dist_mem a b⟩
  rw [Ty.is_same_iff, Ty.get_cast_dist_eq_zero_iff]

/-! ## source/interp/builtin.cpp : FunctionOverloadSet::run (lines 297 to 337)

A candidate of an overload set is represented by the list of argument types
of its declared signature (cand->getSignature()->arg_types()); running the
winning candidate is modelled by returning its index in the overload list. -/

/-- The initial value of the score accumulator in FunctionOverloadSet::run
(int score = INT_MAX). -/
def INT_MAX : Int := 2147483647

/-- The inner cost loop of FunctionOverloadSet::run: sums the positional cast
distances, aborting (goto fail) as soon as one of them is -1.  It is only
reached once the arity check has passed, so unequal lengths map to none. -/
def sumCastDist : List Ty → List Ty → Option Int
  | [], [] => some 0
  | a :: as, c :: cs =>
      let k := Ty.get_cast_dist a c
      if k = -1 then none
      else match sumCastDist as cs with
        | none => none
        | some rest => some (k + rest)
  | _, _ => none

/-- The per-candidate test in FunctionOverloadSet::run: skip when the arity
differs (continue), otherwise run the cost loop. -/
def candCost (args cand : List Ty) : Option Int :=
  if args.length = cand.length then sumCastDist args cand else none

/-- The candidate loop of FunctionOverloadSet::run, carrying the score and
the best candidate seen so far; i is the index of the next candidate. -/
def overloadLoop (args : List Ty) : List (List Ty) → Nat → Int → Option Nat →
    Int × Option Nat
  | [], _, score, best => (score, best)
  | cand :: rest, i, score, best =>
      match candCost args cand with
      | none => overloadLoop args rest (i + 1) score best
      | some cost =>
          if cost < score then overloadLoop args rest (i + 1) cost (some i)
          else overloadLoop args rest (i + 1) score best

/-- FunctionOverloadSet::run: resolve the overload over the candidate list
and run the winner (modelled by its index), or fail with the
no-matching-function error when no candidate was selected. -/
def FunctionOverloadSet.run (args : List Ty) (cands : List (List Ty)) :
    Except String Nat :=
  match (overloadLoop args cands 0 INT_MAX none).2 with
  | none => Except.error "no matching function"
  | some i => Except.ok i

theorem overloadLoop_best_some (args : List Ty) (cands : List (List Ty)) :
    ∀ (i : Nat) (score : Int) (x : Nat),
      ∃ y, (overloadLoop args cands i score (some x)).2 = some y := by
  induction cands with
  | nil => intro i score x; exact ⟨x, rfl⟩
  | cons cand rest ih =>
      intro i score x
      simp only [overloadLoop]
      cases hc : candCost args cand with
      | none => exact ih (i + 1) score x
      | some cost =>
          by_cases hlt : cost < score
          · simp only [if_pos hlt]
            exact ih (i + 1) cost i
          · simp only [if_neg hlt]
            exact ih (i + 1) score x

theorem overloadLoop_some_spec (args : List Ty) (cands : List (List Ty)) :
    ∀ (i : Nat) (score : Int) (best : Option Nat) (j : Nat),
      (overloadLoop args cands i score best).2 = some j →
      (best = some j ∧ (overloadLoop args cands i score best).1 = score ∧
        (∀ (m : Nat) (cand2 : List Ty) (k2 : Int), cands[m]? = some cand2 →
          candCost args cand2 = some k2 → score ≤ k2))
      ∨ (∃ (cand : List Ty) (k : Int), i ≤ j ∧ cands[j - i]? = some cand ∧
          candCost args cand = some k ∧
          k < score ∧ (overloadLoop args cands i score best).1 = k ∧
          (∀ (m : Nat) (cand2 : List Ty) (k2 : Int), cands[m]? = some cand2 →
            candCost args cand2 = some k2 → k ≤ k2) ∧
          (∀ (m : Nat) (cand2 : List Ty) (k2 : Int), m < j - i → cands[m]? = some cand2 →
            candCost args cand2 = some k2 → k < k2)) := by
  induction cands with
  | nil =>
      intro i score best j h
      left
      refine ⟨h, rfl, ?_⟩
      intro m cand2 k2 hm
      simp at hm
  | cons cand rest ih =>
      intro i score best j h
      simp only [overloadLoop] at h ⊢
      cases hc : candCost args cand with
      | none =>
          simp only [hc] at h ⊢
          rcases ih (i + 1) score best j h with ⟨h1, h2, h3⟩ | ⟨c, k, hij, hget, hcost, hlt, hfin, hmin, hstrict⟩
          · left
            refine ⟨h1, h2, ?_⟩
            intro m cand2 k2 hm hk
            cases m with
            | zero =>
                simp at hm
                rw [hm] at hc
                rw [hc] at hk
                cases hk
            | succ m =>
                simp only [List.getElem?_cons_succ] at hm
                exact h3 m cand2 k2 hm hk
          · right
            refine ⟨c, k, by omega, ?_, hcost, hlt, hfin, ?_, ?_⟩
            · have : j - i = (j - (i + 1)) + 1 := by omega
              rw [this, List.getElem?_cons_succ]
              exact hget
            · intro m cand2 k2 hm hk
              cases m with
              | zero =>
                  simp at hm
                  rw [hm] at hc
                  rw [hc] at hk
                  cases hk
              | succ m =>
                  simp only [List.getElem?_cons_succ] at hm
                  exact hmin m cand2 k2 hm hk
            · intro m cand2 k2 hmlt hm hk
              cases m with
              | zero =>
                  simp at hm
                  rw [hm] at hc
                  rw [hc] at hk
                  cases hk
              | succ m =>
                  simp only [List.getElem?_cons_succ] at hm
                  exact hstrict m cand2 k2 (by omega) hm hk
      | some cost =>
          simp only [hc] at h ⊢
          by_cases hlt : cost < score
          · simp only [if_pos hlt] at h ⊢
            rcases ih (i + 1) cost (some i) j h with ⟨h1, h2, h3⟩ | ⟨c, k, hij, hget, hcost, hlt2, hfin, hmin, hstrict⟩
            · -- the head candidate was selected and survived the rest
              right
              have hji : j = i := by
                injection h1 with h1
                omega
              subst hji
              refine ⟨cand, cost, le_refl j, by simp, hc, hlt, h2, ?_, ?_⟩
              · intro m cand2 k2 hm hk
                cases m with
                | zero =>
                    simp at hm
                    rw [hm] at hc
                    rw [hc] at hk
                    injection hk with hk
                    omega
                | succ m =>
                    simp only [List.getElem?_cons_succ] at hm
                    exact h3 m cand2 k2 hm hk
              · intro m cand2 k2 hmlt hm hk
                omega
            · -- a later candidate strictly beat the head
              right
              refine ⟨c, k, by omega, ?_, hcost, by omega, hfin, ?_, ?_⟩
              · have : j - i = (j - (i + 1)) + 1 := by omega
                rw [this, List.getElem?_cons_succ]
                exact hget
              · intro m cand2 k2 hm hk
                cases m with
                | zero =>
                    simp at hm
                    rw [hm] at hc
                    rw [hc] at hk
                    injection hk with hk
                    omega
                | succ m =>
                    simp only [List.getElem?_cons_succ] at hm
                    exact hmin m cand2 k2 hm hk
              · intro m cand2 k2 hmlt hm hk
                cases m with
                | zero =>
                    simp at hm
                    rw [hm] at hc
                    rw [hc] at hk
                    injection hk with hk
                    omega
                | succ m =>
                    simp only [List.getElem?_cons_succ] at hm
                    exact hstrict m cand2 k2 (by omega) hm hk
          · simp only [if_neg hlt] at h ⊢
            rcases ih (i + 1) score best j h with ⟨h1, h2, h3⟩ | ⟨c, k, hij, hget, hcost, hlt2, hfin, hmin, hstrict⟩
            · left
              refine ⟨h1, h2, ?_⟩
              intro m cand2 k2 hm hk
              cases m with
              | zero =>
                  simp at hm
                  rw [hm] at hc
                  rw [hc] at hk
                  injection hk with hk
                  omega
              | succ m =>
                  simp only [List.getElem?_cons_succ] at hm
                  exact h3 m cand2 k2 hm hk
            · right
              refine ⟨c, k, by omega, ?_, hcost, hlt2, hfin, ?_, ?_⟩
              · have : j - i = (j - (i + 1)) + 1 := by omega
                rw [this, List.getElem?_cons_succ]
                exact hget
              · intro m cand2 k2 hm hk
                cases m with
                | zero =>
                    simp at hm
                    rw [hm] at hc
                    rw [hc] at hk
                    injection hk with hk
                    omega
                | succ m =>
                    simp only [List.getElem?_cons_succ] at hm
                    exact hmin m cand2 k2 hm hk
              · intro m cand2 k2 hmlt hm hk
                cases m with
                | zero =>
                    simp at hm
                    rw [hm] at hc
                    rw [hc] at hk
                    injection hk with hk
                    omega
                | succ m =>
                    simp only [List.getElem?_cons_succ] at hm
                    exact hstrict m cand2 k2 (by omega) hm hk

theorem overloadLoop_none_iff (args : List Ty) (cands : List (List Ty)) :
    ∀ (i : Nat) (score : Int),
      (overloadLoop args cands i score none).2 = none ↔
        (∀ (m : Nat) (cand : List Ty) (k : Int), cands[m]? = some cand →
          candCost args cand = some k → score ≤ k) := by
  induction cands with
  | nil =>
      intro i score
      constructor
      · intro _ m cand k hm
        simp at hm
      · intro _
        rfl
  | cons cand rest ih =>
      intro i score
      simp only [overloadLoop]
      cases hc : candCost args cand with
      | none =>
          rw [ih (i + 1) score]
          constructor
          · intro h m cand2 k hm hk
            cases m with
            | zero =>
                simp at hm
                rw [hm] at hc
                rw [hc] at hk
                cases hk
            | succ m =>
                simp only [List.getElem?_cons_succ] at hm
                exact h m cand2 k hm hk
          · intro h m cand2 k hm hk
            exact h (m + 1) cand2 k (by simpa using hm) hk
      | some cost =>
          by_cases hlt : cost < score
          · simp only [if_pos hlt]
            obtain ⟨y, hy⟩ := overloadLoop_best_some args rest (i + 1) cost i
            rw [hy]
            constructor
            · intro h
              cases h
            · intro h
              have := h 0 cand cost (by simp) hc
              omega
          · simp only [if_neg hlt]
            rw [ih (i + 1) score]
            constructor
            · intro h m cand2 k hm hk
              cases m with
              | zero =>
                  simp at hm
                  rw [hm] at hc
                  rw [hc] at hk
                  injection hk with hk
                  omega
              | succ m =>
                  simp only [List.getElem?_cons_succ] at hm
                  exact h m cand2 k hm hk
            · intro h m cand2 k hm hk
              exact h (m + 1) cand2 k (by simpa using hm) hk

theorem sumCastDist_bounds (args : List Ty) :
    ∀ (cand : List Ty) (k : Int), sumCastDist args cand = some k →
      0 ≤ k ∧ k ≤ 3 * args.length := by
  induction args with
  | nil =>
      intro cand k h
      cases cand with
      | nil =>
          simp only [sumCastDist] at h
          injection h with h
          omega
      | cons c cs => simp [sumCastDist] at h
  | cons a as ih =>
      intro cand k h
      cases cand with
      | nil => simp [sumCastDist] at h
      | cons c cs =>
          simp only [sumCastDist] at h
          by_cases hd : Ty.get_cast_dist a c = -1
          · simp [hd] at h
          · simp only [if_neg hd] at h
            cases hr : sumCastDist as cs with
            | none => rw [hr] at h; cases h
            | some rest =>
                rw [hr] at h
                injection h with h
                have hb := ih cs rest hr
                have hmem := Ty.get_cast_dist_mem a c
                have hlen : (3 : Int) * (as.length + 1) = 3 * as.length + 3 := by ring
                simp only [List.length_cons]
                push_cast
                rcases hmem with h0 | h0 | h0 | h0 | h0 <;> rw [h0] at hd h <;> omega

theorem sumCastDist_no_neg_one (args : List Ty) :
    ∀ (cand : List Ty) (k : Int), sumCastDist args cand = some k →
      ∀ (m : Nat) (a c : Ty), args[m]? = some a → cand[m]? = some c →
        Ty.get_cast_dist a c ≠ -1 := by
  induction args with
  | nil =>
      intro cand k h m a c hm
      simp at hm
  | cons a0 as ih =>
      intro cand k h m a c hm hcm
      cases cand with
      | nil => simp [sumCastDist] at h
      | cons c0 cs =>
          simp only [sumCastDist] at h
          by_cases hd : Ty.get_cast_dist a0 c0 = -1
          · simp [hd] at h
          · simp only [if_neg hd] at h
            cases m with
            | zero =>
                simp at hm hcm
                subst hm
                subst hcm
                exact hd
            | succ m =>
                simp only [List.getElem?_cons_succ] at hm hcm
                cases hr : sumCastDist as cs with
                | none => rw [hr] at h; cases h
                | some rest => exact ih cs rest hr m a c hm hcm

theorem candCost_some (args cand : List Ty) (k : Int) (h : candCost args cand = some k) :
    args.length = cand.length ∧ sumCastDist args cand = some k := by
  unfold candCost at h
  split_ifs at h with hl
  · exact ⟨hl, h⟩

/-- Claim C6: for every call through an overload set (with the call small
enough that the total cost cannot reach the INT_MAX sentinel of the score
accumulator), a selected candidate always has the arity of the call and no
positional cast distance of -1, and its total cost is minimal among all
viable candidates; and the call fails with the no-matching-function error,
producing no value, exactly when no viable candidate exists. -/
theorem claim_c6_overload_resolution (args : List Ty) (cands : List (List Ty))
    (hbound : 3 * (args.length : Int) < INT_MAX) :
    (∀ (j : Nat), FunctionOverloadSet.run args cands = Except.ok j →
      ∃ (cand : List Ty) (k : Int), cands[j]? = some cand ∧
        args.length = cand.length ∧
        (∀ (m : Nat) (a c : Ty), args[m]? = some a → cand[m]? = some c →
          Ty.get_cast_dist a c ≠ -1) ∧
        candCost args cand = some k ∧
        (∀ (m : Nat) (cand2 : List Ty) (k2 : Int), cands[m]? = some cand2 →
          candCost args cand2 = some k2 → k ≤ k2)) ∧
    (FunctionOverloadSet.run args cands = Except.error "no matching function" ↔
      (∀ (m : Nat) (cand : List Ty), cands[m]? = some cand →
        candCost args cand = none)) := by
  constructor
  · intro j h
    unfold FunctionOverloadSet.run at h
    cases hsel : (overloadLoop args cands 0 INT_MAX none).2 with
    | none => rw [hsel] at h; cases h
    | some y =>
        rw [hsel] at h
        injection h with h
        subst h
        rcases overloadLoop_some_spec args cands 0 INT_MAX none y hsel with
          ⟨h1, _, _⟩ | ⟨cand, k, _, hget, hcost, _, _, hmin, _⟩
        · cases h1
        · simp only [Nat.sub_zero] at hget
          obtain ⟨hlen, hsum⟩ := candCost_some args cand k hcost
          exact ⟨cand, k, hget, hlen,
            sumCastDist_no_neg_one args cand k hsum, hcost, hmin⟩
  · constructor
    · intro h m cand hm
      unfold FunctionOverloadSet.run at h
      cases hsel : (overloadLoop args cands 0 INT_MAX none).2 with
      | some y => rw [hsel] at h; cases h
      | none =>
          have hall := (overloadLoop_none_iff args cands 0 INT_MAX).mp hsel
          cases hk : candCost args cand with
          | none => rfl
          | some k =>
              have h1 := hall m cand k hm hk
              obtain ⟨_, hsum⟩ := candCost_some args cand k hk
              have h2 := sumCastDist_bounds args cand k hsum
              omega
    · intro h
      unfold FunctionOverloadSet.run
      have hnone : (overloadLoop args cands 0 INT_MAX none).2 = none := by
        rw [overloadLoop_none_iff]
        intro m cand k hm hk
        rw [h m cand hm] at hk
        cases hk
      rw [hnone]

/-- Claim C10: overload resolution is deterministic on ties; when
FunctionOverloadSet::run selects candidate j, every earlier viable candidate
has a strictly larger total cost (the comparison cost < score is strict), so
a later candidate with equal cost never replaces an earlier one and the
selected candidate is the first one attaining the minimal cost. -/
theorem claim_c10_tie_resolution (args : List Ty) (cands : List (List Ty)) (j : Nat)
    (h : FunctionOverloadSet.run args cands = Except.ok j) :
    ∃ (cand : List Ty) (k : Int), cands[j]? = some cand ∧ candCost args cand = some k ∧
      (∀ (m : Nat) (cand2 : List Ty) (k2 : Int), cands[m]? = some cand2 →
        candCost args cand2 = some k2 → k ≤ k2) ∧
      (∀ (m : Nat) (cand2 : List Ty) (k2 : Int), m < j → cands[m]? = some cand2 →
        candCost args cand2 = some k2 → k < k2) := by
  unfold FunctionOverloadSet.run at h
  cases hsel : (overloadLoop args cands 0 INT_MAX none).2 with
  | none => rw [hsel] at h; cases h
  | some y =>
      rw [hsel] at h
      injection h with h
      subst h
      rcases overloadLoop_some_spec args cands 0 INT_MAX none y hsel with
        ⟨h1, _, _⟩ | ⟨cand, k, _, hget, hcost, _, _, hmin, hstrict⟩
      · cases h1
      · simp only [Nat.sub_zero] at hget hstrict
        exact ⟨cand, k, hget, hcost, hmin, hstrict⟩

/-- Witness for claim C6: a concrete call (one int argument against the
candidate signatures dbl, int, bool, int) satisfying the size hypothesis. -/
theorem claim_c6_overload_resolution_witness :
    3 * (([Ty.int] : List Ty).length : Int) < INT_MAX ∧
    ((∀ (j : Nat),
        FunctionOverloadSet.run [Ty.int] [[Ty.double], [Ty.int], [Ty.bool], [Ty.int]] =
          Except.ok j →
      ∃ (cand : List Ty) (k : Int),
        [[Ty.double], [Ty.int], [Ty.bool], [Ty.int]][j]? = some cand ∧
        ([Ty.int] : List Ty).length = cand.length ∧
        (∀ (m : Nat) (a c : Ty), ([Ty.int] : List Ty)[m]? = some a → cand[m]? = some c →
          Ty.get_cast_dist a c ≠ -1) ∧
        candCost [Ty.int] cand = some k ∧
        (∀ (m : Nat) (cand2 : List Ty) (k2 : Int),
          [[Ty.double], [Ty.int], [Ty.bool], [Ty.int]][m]? = some cand2 →
          candCost [Ty.int] cand2 = some k2 → k ≤ k2)) ∧
    (FunctionOverloadSet.run [Ty.int] [[Ty.double], [Ty.int], [Ty.bool], [Ty.int]] =
        Except.error "no matching function" ↔
      (∀ (m : Nat) (cand : List Ty),
        [[Ty.double], [Ty.int], [Ty.bool], [Ty.int]][m]? = some cand →
        candCost [Ty.int] cand = none))) :=
  ⟨by decide,
   claim_c6_overload_resolution [Ty.int] [[Ty.double], [Ty.int], [Ty.bool], [Ty.int]]
     (by decide)⟩

/-- Witness for claim C10: the concrete call above resolves to index 1, the
first of the two equal-cost int candidates (indices 1 and 3). -/
theorem claim_c10_tie_resolution_witness :
    FunctionOverloadSet.run [Ty.int] [[Ty.double], [Ty.int], [Ty.bool], [Ty.int]] =
      Except.ok 1 ∧
    (∃ (cand : List Ty) (k : Int),
      [[Ty.double], [Ty.int], [Ty.bool], [Ty.int]][(1 : Nat)]? = some cand ∧
      candCost [Ty.int] cand = some k ∧
      (∀ (m : Nat) (cand2 : List Ty) (k2 : Int),
        [[Ty.double], [Ty.int], [Ty.bool], [Ty.int]][m]? = some cand2 →
        candCost [Ty.int] cand2 = some k2 → k ≤ k2) ∧
      (∀ (m : Nat) (cand2 : List Ty) (k2 : Int), m < 1 →
        [[Ty.double], [Ty.int], [Ty.bool], [Ty.int]][m]? = some cand2 →
        candCost [Ty.int] cand2 = some k2 → k < k2)) :=
  ⟨rfl, claim_c10_tie_resolution [Ty.int] [[Ty.double], [Ty.int], [Ty.bool], [Ty.int]] 1 rfl⟩

end Interp

/-! ## source/misc/util.cpp : getMillisecondTimestamp (lines 64 to 67) -/

namespace Util

/-- util::getMillisecondTimestamp from util.cpp: the current instant is
represented by its duration since the epoch in nanoseconds (the resolution
of the system clock it reads); the body applies duration_cast to
MICROseconds, an integer division by 1000, and returns that count. -/
def getMillisecondTimestamp (now_ns : Nat) : Nat := now_ns / 1000

/-- Modelled from the spec: the timestamp contract of the data model is the
number of milliseconds since the epoch, which for an instant now_ns
nanoseconds after the epoch is now_ns divided by 1000000. -/
def millisecondsSinceEpoch (now_ns : Nat) : Nat := now_ns / 1000000

/-- Claim C7 (code bug): at the instant one second after the epoch the code
returns 1000000, the epoch offset in microseconds, while the claim requires
the epoch offset in milliseconds, 1000; getMillisecondTimestamp casts to
microseconds instead of milliseconds, contradicting its own name. -/
theorem claim_c7_timestamp_bug :
    getMillisecondTimestamp 1000000000 = 1000000 ∧
    millisecondsSinceEpoch 1000000000 = 1000 ∧
    getMillisecondTimestamp 1000000000 ≠ millisecondsSinceEpoch 1000000000 :=
  ⟨rfl, rfl, by decide⟩

end Util

/-! ## source/commands/lexer.cpp -/

namespace Cmd

/-- Token kinds of the command-language lexer (TokenType in ast.h, as used
by lexer.cpp). -/
inductive TokenType where
  | Invalid | EndOfFile
  | ExponentEquals | ShiftLeftEquals | ShiftRightEquals
  | LogicalAnd | LogicalOr | EqualTo | NotEqual | LessThanEqual | GreaterThanEqual
  | ShiftLeft | ShiftRight | Exponent | Pipeline
  | PlusEquals | MinusEquals | TimesEquals | DivideEquals | RemainderEquals
  | BitwiseXorEquals | BitwiseAndEquals | BitwiseOrEquals | RightArrow
  | NumberLit | StringLit | BooleanLit
  | Function | If | Let | Else | While | Return | For
  | Identifier
  | Semicolon | Dollar | Colon | Pipe | Ampersand | Period | Asterisk | Caret
  | Exclamation | Plus | Comma | Minus | Slash
  | LParen | RParen | LSquare | RSquare | LBrace | RBrace | LAngle | RAngle
  | Equal | Percent
deriving Repr, DecidableEq

/-- A token: its kind and the source slice it covers. -/
structure Token where
  type : TokenType
  text : List Char
deriving Repr, DecidableEq

def is_digit (c : Char) : Bool := decide ('0' ≤ c) && decide (c ≤ '9')

/-- is_letter from lexer.cpp line 13, verbatim: the second range is written
('A' <= c && c <= 'A') in the source, so of the uppercase letters only 'A'
itself is accepted. -/
def is_letter (c : Char) : Bool :=
  (decide ('a' ≤ c) && decide (c ≤ 'z')) || (decide ('A' ≤ c) && decide (c ≤ 'A'))

/-- initKeywordMap from lexer.cpp lines 15 to 30: the nine reserved words
and their token kinds; true and false map to BooleanLit. -/
def keywordType (text : List Char) : Option TokenType :=
  if text = ['f', 'n'] then some .Function
  else if text = ['i', 'f'] then some .If
  else if text = ['l', 'e', 't'] then some .Let
  else if text = ['e', 'l', 's', 'e'] then some .Else
  else if text = ['w', 'h', 'i', 'l', 'e'] then some .While
  else if text = ['r', 'e', 't', 'u', 'r', 'n'] then some .Return
  else if text = ['f', 'o', 'r'] then some .For
  else if text = ['t', 'r', 'u', 'e'] then some .BooleanLit
  else if text = ['f', 'a', 'l', 's', 'e'] then some .BooleanLit
  else none

def digitClass (base : Nat) (c : Char) : Bool :=
  if base = 10 then is_digit c
  else if base = 16 then
    is_digit c || (decide ('a' ≤ c) && decide (c ≤ 'f')) ||
      (decide ('A' ≤ c) && decide (c ≤ 'F'))
  else decide (c = '0') || decide (c = '1')

/-- The numeric-literal branch of lex_one_token (lexer.cpp lines 176 to 259).
The INVALID error returns leave the source where it was, as in the C++. -/
def lexNumber (src : List Char) (prevType : TokenType) : Token × List Char :=
  let baseTmp : Nat × List Char :=
    if ['0', 'x'].isPrefixOf src || ['0', 'X'].isPrefixOf src then (16, src.drop 2)
    else if ['0', 'b'].isPrefixOf src || ['0', 'B'].isPrefixOf src then (2, src.drop 2)
    else (10, src)
  let base := baseTmp.1
  let tmp1 := baseTmp.2.dropWhile (digitClass base)
  -- the optional exponent: an e or E followed by a digit run
  let expResult : Option (Bool × List Char) :=
    match tmp1 with
    | c :: rest =>
        if c = 'e' ∨ c = 'E' then
          if base ≠ 10 then none
          else some (true, rest.dropWhile is_digit)
        else some (false, tmp1)
    | [] => some (false, tmp1)
  match expResult with
  | none => (Token.mk .Invalid [], src)
  | some (hadExp, tmp2) =>
      let didRead := src.length - tmp2.length
      let post := src.drop didRead
      match post with
      | '.' :: post1 =>
          if base ≠ 10 then (Token.mk .Invalid [], src)
          else if hadExp then (Token.mk .Invalid [], src)
          else
            -- lex a floating point iff the previous token was not a period
            -- and the character after the dot is a digit
            if decide (prevType ≠ TokenType.Period) && (match post1 with
                | d :: _ => is_digit d
                | [] => false) then
              let frac := post1.takeWhile is_digit
              let n := didRead + 1 + frac.length
              (Token.mk .NumberLit (src.take n), src.drop n)
            else
              (Token.mk .NumberLit (src.take didRead), src.drop didRead)
      | _ => (Token.mk .NumberLit (src.take didRead), src.drop didRead)

/-- The string-literal scan loop of lex_one_token (lexer.cpp lines 260 to
298): counts the characters of the literal body, skipping backslash-quote
pairs, and returns the body length together with the remainder after the
closing quote.  An unterminated literal makes the C++ loop read past the end
of the buffer; that case is modelled as none. -/
def stringScan : List Char → Nat → Option (Nat × List Char)
  | [], _ => none
  | '"' :: rest, count => some (count, rest)
  | '\\' :: '"' :: rest, count => stringScan rest (count + 2)
  | _ :: rest, count => stringScan rest (count + 1)

/-- The multi-character operator checks at the top of lex_one_token, in the
exact order the source tests them (lexer.cpp lines 44 to 175). -/
def opTable : List (List Char × TokenType) :=
  [ (['*', '*', '='], .ExponentEquals)
  , (['<', '<', '='], .ShiftLeftEquals)
  , (['>', '>', '='], .ShiftRightEquals)
  , (['&', '&'], .LogicalAnd)
  , (['|', '|'], .LogicalOr)
  , (['=', '='], .EqualTo)
  , (['!', '='], .NotEqual)
  , (['<', '='], .LessThanEqual)
  , (['>', '='], .GreaterThanEqual)
  , (['<', '<'], .ShiftLeft)
  , (['>', '>'], .ShiftRight)
  , (['*', '*'], .Exponent)
  , (['|', '>'], .Pipeline)
  , (['+', '='], .PlusEquals)
  , (['-', '='], .MinusEquals)
  , (['*', '='], .TimesEquals)
  , (['/', '='], .DivideEquals)
  , (['%', '='], .RemainderEquals)
  , (['^', '='], .BitwiseXorEquals)
  , (['&', '='], .BitwiseAndEquals)
  , (['|', '='], .BitwiseOrEquals)
  , (['-', '>'], .RightArrow) ]

/-- The single-character switch at the bottom of lex_one_token (lexer.cpp
lines 323 to 352); unknown characters yield an Invalid token of length 1. -/
def singleCharType (c : Char) : TokenType :=
  if c = ';' then .Semicolon
  else if c = '$' then .Dollar
  else if c = ':' then .Colon
  else if c = '|' then .Pipe
  else if c = '&' then .Ampersand
  else if c = '.' then .Period
  else if c = '*' then .Asterisk
  else if c = '^' then .Caret
  else if c = '!' then .Exclamation
  else if c = '+' then .Plus
  else if c = ',' then .Comma
  else if c = '-' then .Minus
  else if c = '/' then .Slash
  else if c = '(' then .LParen
  else if c = ')' then .RParen
  else if c = '[' then .LSquare
  else if c = ']' then .RSquare
  else if c = '\x7b' then .LBrace
  else if c = '\x7d' then .RBrace
  else if c = '<' then .LAngle
  else if c = '>' then .RAngle
  else if c = '=' then .Equal
  else if c = '%' then .Percent
  else .Invalid

/-- lex_one_token from lexer.cpp lines 35 to 357: skip whitespace, then try
the operator table, then numeric literals, string literals, identifiers and
keywords, and finally the single-character switch.  The function returns the
token and the remaining input. -/
def lex_one_token (src0 : List Char) (prevType : TokenType) : Token × List Char :=
  let src := src0.dropWhile
    (fun c => decide (c = ' ') || decide (c = '\t') || decide (c = '\n') ||
      decide (c = '\r'))
  match src with
  | [] => (Token.mk .EndOfFile [], [])
  | c :: rest =>
      match opTable.find? (fun p => p.1.isPrefixOf src) with
      | some (op, ty) => (Token.mk ty op, src.drop op.length)
      | none =>
          if is_digit c then lexNumber src prevType
          else if c = '"' then
            match rest with
            | [] => (Token.mk .Invalid [], src)
            | _ =>
                match stringScan rest 0 with
                | some (count, remaining) =>
                    (Token.mk .StringLit (rest.take count), remaining)
                | none => (Token.mk .Invalid [], [])
          else if decide (c = '_') || is_letter c then
            let text := c :: rest.takeWhile
              (fun ch => is_digit ch || is_letter ch || decide (ch = '_'))
            let ty := match keywordType text with
              | some t => t
              | none => TokenType.Identifier
            (Token.mk ty text, src.drop text.length)
          else
            (Token.mk (singleCharType c) [c], rest)

/-- lexString from lexer.cpp lines 360 to 369, as a fuel recursion: the C++
loop calls lex_one_token until EndOfFile, feeding each token kind back as
prevType (the first call sees the default-constructed kind, which is not
Period).  The error paths of the numeric and string branches return an
Invalid token without consuming input, on which the C++ loop never
terminates; the fuel (length of the input plus one) covers every
terminating execution. -/
def lexStringGo (args : Nat) (src : List Char) (prev : TokenType) : List Token :=
  match args with
  | 0 => []
  | fuel + 1 =>
      let r := lex_one_token src prev
      if r.1.type = .EndOfFile then []
      else r.1 :: lexStringGo fuel r.2 r.1.type

def lexString (src : List Char) : List Token :=
  lexStringGo (src.length + 1) src .Invalid

/-- Claim C8 (code bug): the identifier rule is broken for the uppercase
letters B to Z.  is_letter tests ('A' <= c && c <= 'A') instead of
('A' <= c && c <= 'Z'), so of the uppercase letters only 'A' starts or
continues an identifier.  On the input Bob, a maximal run matching the
claimed character class, the lexer emits an Invalid token holding B followed
by the identifier ob instead of the single identifier Bob; runs without
uppercase letters, the nine reserved words and the boolean literals behave
as claimed. -/
theorem claim_c8_lexer_identifier_bug :
    is_letter 'B' = false ∧ is_letter 'A' = true ∧ is_letter 'z' = true ∧
    lexString ("Bob".toList) =
      [Token.mk .Invalid ['B'], Token.mk .Identifier ['o', 'b']] ∧
    lexString ("Bob".toList) ≠ [Token.mk .Identifier ("Bob".toList)] ∧
    lexString ("bob".toList) = [Token.mk .Identifier ("bob".toList)] ∧
    lexString ("_a9A".toList) = [Token.mk .Identifier ("_a9A".toList)] ∧
    lexString ("while".toList) = [Token.mk .While ("while".toList)] ∧
    lexString ("true".toList) = [Token.mk .BooleanLit ("true".toList)] ∧
    lexString ("false".toList) = [Token.mk .BooleanLit ("false".toList)] := by
  decide

end Cmd

/-! ## source/backends/twitch/message.cpp : TwitchState::sendMessage
(lines 345 to 379)

Messages are modelled as lists of Unicode codepoints (the utf32 view the
code builds); converting between utf8 and utf32 is a bijection on valid
scalar sequences, so only the utf8 byte count needs to be modelled. -/

namespace Twitch

/-- The message length limit of sendMessage (constexpr size_t LIMIT = 500). -/
def LIMIT : Nat := 500

/-- unicode::get_byte_length: the number of utf8 bytes of one codepoint. -/
def utf8ByteLen (cp : Nat) : Nat :=
  if cp < 0x80 then 1 else if cp < 0x800 then 2 else if cp < 0x10000 then 3 else 4

/-- The byte length of the utf8 encoding of a codepoint sequence: this is
what msg.size() returns on the utf8 string_view the code tests first. -/
def utf8Size (msg : List Nat) : Nat := (msg.map utf8ByteLen).sum

def isSpaceChar (c : Nat) : Bool := c = 32 || c = 9 || c = 10 || c = 13

/-- Modelled from the spec: ikura::str_view::trim (types.h is not part of
src); it strips leading and trailing whitespace from the message. -/
def trim (l : List Nat) : List Nat :=
  ((l.dropWhile isSpaceChar).reverse.dropWhile isSpaceChar).reverse

/-- span::find_last from the splitting loop: the index of the last
occurrence of a value, or none. -/
def findLast : List Nat → Nat → Option Nat
  | [], _ => none
  | a :: as, x =>
      match findLast as x with
      | some i => some (i + 1)
      | none => if a = x then some 0 else none

/-- The while loop of sendMessage for an over-long message: carve off a
fragment (up to the last space within the first LIMIT codepoints, or LIMIT
when there is none), drop the fragment plus one codepoint, skip empty
fragments, and send each fragment through the given recursive send.  The
loop fuel only bounds the iteration count; span shrinks every iteration, so
length plus one is always enough. -/
def sendLoopWith (send : List Nat → Option (List (List Nat))) :
    Nat → List Nat → Option (List (List Nat))
  | 0, _ => none
  | lfuel + 1, span =>
      if span.length = 0 then some []
      else
        let frag :=
          if span.length > LIMIT then
            let spl := match findLast (span.take LIMIT) 32 with
              | some i => i
              | none => LIMIT
            span.take spl
          else span
        let rest := span.drop (frag.length + 1)
        if frag.length = 0 then sendLoopWith send lfuel rest
        else
          match send frag, sendLoopWith send lfuel rest with
          | some a, some b => some (a ++ b)
          | _, _ => none

/-- TwitchState::sendMessage: trim, and if the utf8 byte count exceeds
LIMIT, split the codepoint sequence and recursively send each fragment,
otherwise send the single PRIVMSG line.  The result is the list of PRIVMSG
payloads, or none when the recursion exhausts its fuel, which models the
unbounded recursion of the C++ (a fragment can again exceed LIMIT bytes
while having at most LIMIT codepoints). -/
def sendMessage : Nat → List Nat → Option (List (List Nat))
  | 0, _ => none
  | fuel + 1, msg =>
      let m := trim msg
      if utf8Size m > LIMIT then sendLoopWith (sendMessage fuel) (m.length + 1) m
      else some [m]

set_option maxRecDepth 10000 in
theorem sendMessage_multibyte_unfold (g : Nat) :
    sendMessage (g + 1) (List.replicate 126 65536) =
      sendLoopWith (sendMessage g) 127 (List.replicate 126 65536) := by rfl

set_option maxRecDepth 10000 in
theorem sendLoopWith_multibyte_unfold (f : List Nat → Option (List (List Nat))) :
    sendLoopWith f 127 (List.replicate 126 65536) =
      match f (List.replicate 126 65536), some ([] : List (List Nat)) with
      | some a, some b => some (a ++ b)
      | _, _ => none := by rfl

theorem sendMessage_multibyte_diverges :
    ∀ g, sendMessage g (List.replicate 126 65536) = none := by
  intro g
  induction g with
  | zero => rfl
  | succ g ih => rw [sendMessage_multibyte_unfold, sendLoopWith_multibyte_unfold, ih]

set_option maxRecDepth 10000 in
/-- Claim C9 (code bug): two deviations of sendMessage from the claim.
First, on a 501-codepoint message with no space (501 repetitions of the
letter a, codepoint 97) no space is found in the first 500 codepoints, the
split index falls back to exactly 500, and the loop then drops fragment
length plus one codepoints, so the 501st letter is silently lost: the only
PRIVMSG payload carries 500 of the 501 non-space codepoints.  Second, the
over-length test reads the byte length of the utf8 encoding although the
comment above it says codepoints: a message of 126 four-byte codepoints
(504 bytes, 126 codepoints) enters the split path, produces itself as its
only fragment and recurses on itself forever, so no PRIVMSG is ever sent
for it although it is at most 500 codepoints long. -/
theorem claim_c9_sendmessage_bug :
    sendMessage 2 (List.replicate 501 97) = some [List.replicate 500 97] ∧
    (List.replicate 501 97).count 97 = 501 ∧
    (List.replicate 500 97).count 97 = 500 ∧
    (∀ g, sendMessage g (List.replicate 126 65536) = none) ∧
    utf8Size (List.replicate 126 65536) = 504 ∧
    (List.replicate 126 65536).length = 126 :=
  ⟨by decide, by decide, by decide, sendMessage_multibyte_diverges, by decide, by decide⟩

end Twitch

/-! ## source/markov/markov.cpp : process_one and the WordList invariant

The word-splitting stage (lines 316 to 400) produces a list of (text,
is-emote) pairs from the raw message; its unicode classification lives in
the vendored utf8proc library.  The model takes that pair list as the
input of a training step and embeds everything from the length filters
(line 404) to the table update loops (lines 416 to 462).  The prefix hash
(std::hash over a span of word indices) is an arbitrary function supplied
as a parameter.  The tsl::robin_map and std::map containers are modelled
as association lists with unique keys. -/

namespace Markov

def MIN_INPUT_LENGTH : Nat := 2
def GOOD_INPUT_LENGTH : Nat := 6
def DISCARD_CHANCE_PERCENT : Nat := 80
def MAX_PREFIX_LENGTH : Nat := 3
def IDX_START_MARKER : Nat := 0
def IDX_END_MARKER : Nat := 1
def WORD_FLAG_EMOTE : Nat := 1
def WORD_FLAG_SENTENCE_START : Nat := 2
def WORD_FLAG_SENTENCE_END : Nat := 4

/-- Word from markov.cpp lines 21 to 33: a global word index and its
frequency in one WordList. -/
structure Word where
  index : Nat
  frequency : Nat
deriving Repr, DecidableEq

/-- WordList from markov.cpp lines 35 to 49: the total frequency, the
frequency vector, and the map from global word index to position in the
vector. -/
structure WordList where
  totalFrequency : Nat
  words : List Word
  globalIndexMap : List (Nat × Nat)
deriving Repr, DecidableEq

/-- DBWord from markov.cpp lines 51 to 64: the word text and its flags. -/
structure DBWord where
  word : String
  flags : Nat
deriving Repr, DecidableEq

/-- MarkovModel from markov.cpp lines 66 to 77. -/
structure MarkovModel where
  table : List (Nat × WordList)
  wordIndices : List (String × Nat)
  wordList : List DBWord
deriving Repr, DecidableEq

/-- initialise_model from markov.cpp lines 92 to 96: a fresh model holds
only the start and end markers at indices 0 and 1. -/
def initialise_model : MarkovModel :=
  { table := []
  , wordIndices := []
  , wordList := [⟨"", WORD_FLAG_SENTENCE_START⟩, ⟨"", WORD_FLAG_SENTENCE_END⟩] }

/-- Increment the frequency of the word at position i of the vector
(wordlist->words[i].frequency++); out of range the C++ would be undefined,
the model leaves the list unchanged (the invariant proof shows the index is
always in range on reachable states). -/
def bumpAt : List Word → Nat → List Word
  | [], _ => []
  | w :: ws, 0 => { w with frequency := w.frequency + 1 } :: ws
  | w :: ws, i + 1 => w :: bumpAt ws i

/-- The body of the per-pair table update (markov.cpp lines 449 to 459):
bump the total, then either bump the word already present in the vector or
append it with frequency one and record its position. -/
def updateWordList (wl : WordList) (the_word : Nat) : WordList :=
  let wl1 : WordList := { wl with totalFrequency := wl.totalFrequency + 1 }
  match wl1.globalIndexMap.lookup the_word with
  | some i => { wl1 with words := bumpAt wl1.words i }
  | none =>
      { wl1 with words := wl1.words ++ [⟨the_word, 1⟩]
               , globalIndexMap := wl1.globalIndexMap ++ [(the_word, wl1.words.length)] }

/-- The table access of markov.cpp lines 441 to 447: find the WordList for
the hash, creating an empty one when absent, and apply the update. -/
def tableUpdate : List (Nat × WordList) → Nat → Nat → List (Nat × WordList)
  | [], h, w => [(h, updateWordList ⟨0, [], []⟩ w)]
  | (k, wl) :: rest, h, w =>
      if k = h then (k, updateWordList wl w) :: rest
      else (k, wl) :: tableUpdate rest h w

/-- get_word_index from markov.cpp lines 284 to 305: emotes are keyed with a
leading-space sentinel; unseen words are appended to the word list and the
index map. -/
def get_word_index (m : MarkovModel) (sv : String) (is_emote : Bool) :
    Nat × MarkovModel :=
  let word := if is_emote then " " ++ sv else sv
  match m.wordIndices.lookup word with
  | some i => (i, m)
  | none =>
      let idx := m.wordList.length
      (idx,
        { m with
          wordList := m.wordList ++ [⟨sv, if is_emote then WORD_FLAG_EMOTE else 0⟩]
          , wordIndices := m.wordIndices ++ [(word, idx)] })

/-- The (prefix, target word) pairs visited by the nested loops of
markov.cpp lines 429 to 437, in loop order: for every i with i+1 < length
and every k in 1..MAX_PREFIX_LENGTH with i+k < length, the prefix
words[i..i+k) and the target words[i+k]. -/
def updatesFor (words : List Nat) : List (List Nat × Nat) :=
  (List.range words.length).flatMap (fun i =>
    (List.range MAX_PREFIX_LENGTH).filterMap (fun k0 =>
      let k := k0 + 1
      if i + k < words.length then
        some ((words.drop i).take k, words.getD (i + k) 0)
      else none))

/-- process_one from the word array onward (markov.cpp lines 403 to 462):
drop messages shorter than MIN_INPUT_LENGTH, drop short messages when the
random roll x (drawn from 0..100) satisfies x <= DISCARD_CHANCE_PERCENT,
otherwise intern all words, wrap them in the start and end markers, and run
every (prefix, target) update through the table. -/
def processWords (hash : List Nat → Nat) (m : MarkovModel)
    (word_arr : List (String × Bool)) (roll : Nat) : MarkovModel :=
  if word_arr.length < MIN_INPUT_LENGTH then m
  else if word_arr.length < GOOD_INPUT_LENGTH ∧ roll ≤ DISCARD_CHANCE_PERCENT then m
  else
    let im := word_arr.foldl
      (fun (acc : List Nat × MarkovModel) wb =>
        let r := get_word_index acc.2 wb.1 wb.2
        (acc.1 ++ [r.1], r.2))
      ([], m)
    let words := IDX_START_MARKER :: (im.1 ++ [IDX_END_MARKER])
    { im.2 with
      table := (updatesFor words).foldl (fun t u => tableUpdate t (hash u.1) u.2) im.2.table }

/-- The model after ingesting a sequence of messages (each a word array
plus its discard roll) starting from the freshly initialised model. -/
def ingestAll (hash : List Nat → Nat) (msgs : List (List (String × Bool) × Nat)) :
    MarkovModel :=
  msgs.foldl (fun m p => processWords hash m p.1 p.2) initialise_model

/-- The WordList invariant together with the strengthening that makes it
inductive: the index map only holds positions inside the word vector. -/
def wlI (wl : WordList) : Prop :=
  wl.totalFrequency = (wl.words.map Word.frequency).sum ∧
  ∀ p ∈ wl.globalIndexMap, p.2 < wl.words.length

theorem lookup_mem_nat (l : List (Nat × Nat)) (k v : Nat)
    (h : l.lookup k = some v) : (k, v) ∈ l := by
  induction l with
  | nil => cases h
  | cons p rest ih =>
      rw [List.lookup] at h
      by_cases hk : k = p.1
      · simp only [hk, beq_self_eq_true] at h
        injection h with h
        subst h
        subst hk
        exact List.mem_cons_self _ _
      · have : (k == p.1) = false := beq_false_of_ne hk
        rw [this] at h
        exact List.mem_cons_of_mem _ (ih h)

theorem bumpAt_length (l : List Word) (i : Nat) : (bumpAt l i).length = l.length := by
  induction l generalizing i with
  | nil => rfl
  | cons w ws ih =>
      cases i with
      | zero => rfl
      | succ i => simp [bumpAt, ih]

theorem bumpAt_sum (l : List Word) (i : Nat) (h : i < l.length) :
    ((bumpAt l i).map Word.frequency).sum = (l.map Word.frequency).sum + 1 := by
  induction l generalizing i with
  | nil => simp at h
  | cons w ws ih =>
      cases i with
      | zero => simp [bumpAt]; omega
      | succ i =>
          simp only [bumpAt, List.map_cons, List.sum_cons]
          rw [ih i (by simpa using h)]
          omega

theorem updateWordList_wlI (wl : WordList) (w : Nat) (h : wlI wl) :
    wlI (updateWordList wl w) := by
  obtain ⟨hsum, hidx⟩ := h
  unfold updateWordList
  cases hl : wl.globalIndexMap.lookup w with
  | some i =>
      have hmem := lookup_mem_nat _ _ _ hl
      have hlt : i < wl.words.length := hidx (w, i) hmem
      simp only [hl]
      constructor
      · rw [bumpAt_sum wl.words i hlt, hsum]
      · intro p hp
        rw [bumpAt_length]
        exact hidx p hp
  | none =>
      simp only [hl]
      constructor
      · simp only [List.map_append, List.sum_append, List.map_cons, List.sum_cons]
        simp [hsum]
      · intro p hp
        simp only [List.mem_append, List.mem_cons] at hp
        simp only [List.length_append, List.length_cons, List.length_nil]
        rcases hp with hp | hp | hp
        · have := hidx p hp
          omega
        · subst hp
          simp
        · cases hp

theorem tableUpdate_wlI (t : List (Nat × WordList)) (h w : Nat)
    (ht : ∀ p ∈ t, wlI p.2) : ∀ p ∈ tableUpdate t h w, wlI p.2 := by
  induction t with
  | nil =>
      intro p hp
      simp only [tableUpdate, List.mem_cons] at hp
      rcases hp with hp | hp
      · subst hp
        exact updateWordList_wlI _ _ ⟨rfl, by intro p hp; cases hp⟩
      · cases hp
  | cons q rest ih =>
      intro p hp
      simp only [tableUpdate] at hp
      by_cases hk : q.1 = h
      · rw [if_pos hk] at hp
        rcases List.mem_cons.mp hp with hp | hp
        · subst hp
          exact updateWordList_wlI _ _ (ht q (List.mem_cons_self _ _))
        · exact ht p (List.mem_cons_of_mem _ hp)
      · rw [if_neg hk] at hp
        rcases List.mem_cons.mp hp with hp | hp
        · subst hp
          exact ht q (List.mem_cons_self _ _)
        · exact ih (fun r hr => ht r (List.mem_cons_of_mem _ hr)) p hp

theorem updatesFold_wlI (hash : List Nat → Nat) (us : List (List Nat × Nat))
    (t : List (Nat × WordList)) (ht : ∀ p ∈ t, wlI p.2) :
    ∀ p ∈ us.foldl (fun t u => tableUpdate t (hash u.1) u.2) t, wlI p.2 := by
  induction us generalizing t with
  | nil => exact ht
  | cons u us ih =>
      simp only [List.foldl_cons]
      exact ih _ (tableUpdate_wlI t (hash u.1) u.2 ht)

theorem get_word_index_table (m : MarkovModel) (sv : String) (e : Bool) :
    (get_word_index m sv e).2.table = m.table := by
  unfold get_word_index
  cases h : List.lookup (if e = true then " " ++ sv else sv) m.wordIndices <;>
    simp [h]

theorem internFold_table (word_arr : List (String × Bool)) :
    ∀ (acc : List Nat × MarkovModel),
      (word_arr.foldl
        (fun (acc : List Nat × MarkovModel) wb =>
          let r := get_word_index acc.2 wb.1 wb.2
          (acc.1 ++ [r.1], r.2))
        acc).2.table = acc.2.table := by
  induction word_arr with
  | nil => intro acc; rfl
  | cons wb rest ih =>
      intro acc
      simp only [List.foldl_cons]
      rw [ih]
      exact get_word_index_table _ _ _

theorem processWords_wlI (hash : List Nat → Nat) (m : MarkovModel)
    (word_arr : List (String × Bool)) (roll : Nat)
    (hm : ∀ p ∈ m.table, wlI p.2) :
    ∀ p ∈ (processWords hash m word_arr roll).table, wlI p.2 := by
  unfold processWords
  split_ifs with h1 h2
  · exact hm
  · exact hm
  · intro p hp
    simp only at hp
    refine updatesFold_wlI hash _ _ ?_ p hp
    rw [internFold_table]
    exact hm

/-- Claim C2: starting from the freshly initialised Markov model, after any
sequence of training updates (each given by its split word array and its
discard roll, over an arbitrary prefix-hash function), every WordList
reachable in the transition table has totalFrequency equal to the sum of
the frequencies of its word entries; the proof is by preservation of the
invariant across every single update. -/
theorem claim_c2_markov_total_frequency (hash : List Nat → Nat)
    (msgs : List (List (String × Bool) × Nat)) :
    ∀ p ∈ (ingestAll hash msgs).table,
      p.2.totalFrequency = (p.2.words.map Word.frequency).sum := by
  have main : ∀ p ∈ (ingestAll hash msgs).table, wlI p.2 := by
    unfold ingestAll
    have h0 : ∀ p ∈ initialise_model.table, wlI p.2 := by
      intro p hp
      cases hp
    generalize initialise_model = m0 at h0 ⊢
    induction msgs generalizing m0 with
    | nil => exact h0
    | cons msg rest ih =>
        simp only [List.foldl_cons]
        exact ih _ (processWords_wlI hash m0 msg.1 msg.2 h0)
  intro p hp
  exact (main p hp).1

/-- Witness for claim C2: ingesting the two-word message hello world (roll
90, so it survives the discard filter) from the fresh model, the WordList
of the hashed prefix holding the start marker satisfies the invariant. -/
theorem claim_c2_markov_total_frequency_witness :
    ((217, (⟨1, [⟨2, 1⟩], [(2, 0)]⟩ : WordList)) ∈
      (ingestAll (fun l => l.foldl (fun a b => a * 31 + b) 7)
        [([("hello", false), ("world", false)], 90)]).table) ∧
    (1 : Nat) = ([(⟨2, 1⟩ : Word)].map Word.frequency).sum :=
  ⟨by decide,
   claim_c2_markov_total_frequency (fun l => l.foldl (fun a b => a * 31 + b) 7)
     [([("hello", false), ("world", false)], 90)]
     (217, (⟨1, [⟨2, 1⟩], [(2, 0)]⟩ : WordList)) (by decide)⟩

end Markov

/-! ## source/datastore/database.cpp

The byte-level writer and reader (serialise.h) are not part of src; they are
modelled from the specification, section 4.A: integers are fixed-width
little-endian, strings and sequences are length-prefixed with a u64, maps
are length-prefixed lists of key-value pairs, and each persisted entity
begins with a one-byte type tag.  Bytes are Nat values; fixed-width writes
reduce modulo the width.  Strings are byte lists and are written verbatim
(their elements are bytes by type in the C++). -/

namespace Db

/-- Modelled from the spec: the type tags of the persisted entities
(TAG_... constants of serialise.h, which is not in src); one tag per
distinct persisted entity, and only their pairwise distinctness is used. -/
def TAG_TWITCH_DB : Nat := 1

def TAG_TWITCH_USER : Nat := 2

def TAG_TWITCH_USER_CREDS : Nat := 3

def TAG_INTERP_STATE : Nat := 4

def TAG_DISCORD_DB : Nat := 5

def TAG_MARKOV_DB : Nat := 6

/-- Modelled from the spec: the little-endian byte decomposition of a
fixed-width integer (w bytes). -/
def leBytes : Nat → Nat → List Nat
  | 0, _ => []
  | w + 1, n => (n % 256) :: leBytes w (n / 256)

/-- Modelled from the spec: the value of a little-endian byte sequence. -/
def leVal : List Nat → Nat
  | [] => 0
  | b :: bs => b + 256 * leVal bs

/-- Writer::tag: append the one-byte type tag. -/
def wtag (buf : List Nat) (t : Nat) : List Nat := buf ++ [t % 256]

/-- Writer::write of a u64: eight little-endian bytes. -/
def wU64 (buf : List Nat) (n : Nat) : List Nat := buf ++ leBytes 8 n

/-- Writer::write of a u32: four little-endian bytes. -/
def wU32 (buf : List Nat) (n : Nat) : List Nat := buf ++ leBytes 4 n

/-- Writer::write of a string: u64 length prefix, then the raw bytes. -/
def wBytes (buf : List Nat) (s : List Nat) : List Nat :=
  buf ++ leBytes 8 s.length ++ s

/-- Writer::write of a map with byte-string keys: u64 size prefix, then the
key-value pairs in order. -/
def wMap (writeV : List Nat → α → List Nat) (buf : List Nat)
    (m : List (List Nat × α)) : List Nat :=
  m.foldl (fun b p => writeV (wBytes b p.1) p.2) (wU64 buf m.length)

/-- Reader::tag: consume one byte. -/
def rtag : List Nat → Option (Nat × List Nat)
  | [] => none
  | b :: rest => some (b, rest)

/-- Reader::read of a fixed-width little-endian integer; fails (truncated)
when fewer than w bytes remain. -/
def rLE (w : Nat) (buf : List Nat) : Option (Nat × List Nat) :=
  if w ≤ buf.length then some (leVal (buf.take w), buf.drop w) else none

/-- Reader::read of a string: length prefix then raw bytes. -/
def rBytes (buf : List Nat) : Option (List Nat × List Nat) :=
  match rLE 8 buf with
  | none => none
  | some (n, rest) =>
      if n ≤ rest.length then some (rest.take n, rest.drop n) else none

/-- Reader::read of a map: size prefix then that many key-value pairs. -/
def rPairs (readV : List Nat → Option (α × List Nat)) :
    Nat → List Nat → Option (List (List Nat × α) × List Nat)
  | 0, buf => some ([], buf)
  | n + 1, buf =>
      match rBytes buf with
      | none => none
      | some (k, buf1) =>
          match readV buf1 with
          | none => none
          | some (v, buf2) =>
              match rPairs readV n buf2 with
              | none => none
              | some (ps, buf3) => some ((k, v) :: ps, buf3)

def rMap (readV : List Nat → Option (α × List Nat)) (buf : List Nat) :
    Option (List (List Nat × α) × List Nat) :=
  match rLE 8 buf with
  | none => none
  | some (n, rest) => rPairs readV n rest

theorem leBytes_length (w n : Nat) : (leBytes w n).length = w := by
  induction w generalizing n with
  | zero => rfl
  | succ w ih => simp [leBytes, ih]

theorem leVal_leBytes (w n : Nat) : leVal (leBytes w n) = n % 256 ^ w := by
  induction w generalizing n with
  | zero => simp [leBytes, leVal, Nat.mod_one]
  | succ w ih =>
      rw [leBytes, leVal, ih, pow_succ, mul_comm (256 ^ w) 256, Nat.mod_mul]


theorem leBytes_mod (w n : Nat) : leBytes w (n % 256 ^ w) = leBytes w n := by
  induction w generalizing n with
  | zero => rfl
  | succ w ih =>
      rw [leBytes, leBytes]
      have h1 : n % 256 ^ (w + 1) % 256 = n % 256 :=
        Nat.mod_mod_of_dvd n (dvd_pow_self 256 (Nat.succ_ne_zero w))
      have h2 : n % 256 ^ (w + 1) / 256 = n / 256 % 256 ^ w := by
        rw [pow_succ']
        exact Nat.mod_mul_right_div_self n 256 (256 ^ w)
      rw [h1, h2, ih]

theorem rLE_append (w n : Nat) (rest : List Nat) :
    rLE w (leBytes w n ++ rest) = some (n % 256 ^ w, rest) := by
  have hl := leBytes_length w n
  unfold rLE
  rw [if_pos (by simp [hl])]
  rw [List.take_append_of_le_length (le_of_eq hl.symm),
    List.take_of_length_le (le_of_eq hl), leVal_leBytes,
    List.drop_append_of_le_length (le_of_eq hl.symm),
    List.drop_eq_nil_of_le (le_of_eq hl), List.nil_append]

theorem rBytes_append (s rest : List Nat) (h : s.length < 2 ^ 64) :
    rBytes ((leBytes 8 s.length ++ s) ++ rest) = some (s, rest) := by
  rw [List.append_assoc]
  unfold rBytes
  rw [rLE_append]
  have h8 : (256 : Nat) ^ 8 = 2 ^ 64 := by norm_num
  have hm : s.length % 256 ^ 8 = s.length := by
    rw [h8]
    exact Nat.mod_eq_of_lt h
  rw [hm]
  simp [List.take_left, List.drop_left]

theorem take_drop_exact (k : Nat) (l1 l2 : List Nat) (h : l1.length = k) :
    (l1 ++ l2).take k = l1 ∧ (l1 ++ l2).drop k = l2 := by
  constructor
  · rw [List.take_append_of_le_length (le_of_eq h.symm),
      List.take_of_length_le (le_of_eq h)]
  · rw [List.drop_append_of_le_length (le_of_eq h.symm),
      List.drop_eq_nil_of_le (le_of_eq h), List.nil_append]

/-- The body of a serialised map without its length prefix. -/
def wMapBody (writeV : List Nat → α → List Nat) (m : List (List Nat × α)) :
    List Nat :=
  m.foldl (fun b p => writeV (wBytes b p.1) p.2) []

theorem wMap_foldl_append (writeV : List Nat → α → List Nat)
    (hVapp : ∀ (buf : List Nat) (v : α), writeV buf v = buf ++ writeV [] v) :
    ∀ (m : List (List Nat × α)) (b : List Nat),
      m.foldl (fun b p => writeV (wBytes b p.1) p.2) b = b ++ wMapBody writeV m := by
  intro m
  induction m with
  | nil => intro b; simp [wMapBody]
  | cons p m ih =>
      intro b
      simp only [List.foldl_cons, wMapBody]
      rw [ih, ih (writeV (wBytes [] p.1) p.2)]
      rw [hVapp (wBytes b p.1) p.2, hVapp (wBytes [] p.1) p.2]
      simp [wBytes, List.append_assoc]

theorem wMap_decomp (writeV : List Nat → α → List Nat)
    (hVapp : ∀ (buf : List Nat) (v : α), writeV buf v = buf ++ writeV [] v)
    (buf : List Nat) (m : List (List Nat × α)) :
    wMap writeV buf m = buf ++ leBytes 8 m.length ++ wMapBody writeV m := by
  unfold wMap
  rw [wMap_foldl_append writeV hVapp, wU64, List.append_assoc]

theorem rPairs_roundtrip (writeV : List Nat → α → List Nat)
    (readV : List Nat → Option (α × List Nat)) (WFv : α → Prop)
    (hVapp : ∀ (buf : List Nat) (v : α), writeV buf v = buf ++ writeV [] v)
    (hV : ∀ (v : α) (rest : List Nat), WFv v → readV (writeV [] v ++ rest) = some (v, rest)) :
    ∀ (m : List (List Nat × α)) (rest : List Nat),
      (∀ p ∈ m, p.1.length < 2 ^ 64 ∧ WFv p.2) →
      rPairs readV m.length (wMapBody writeV m ++ rest) = some (m, rest) := by
  intro m
  induction m with
  | nil =>
      intro rest _
      simp [wMapBody, rPairs]
  | cons p m ih =>
      intro rest hWF
      have hhead := hWF p (List.mem_cons_self _ _)
      have hbody : wMapBody writeV (p :: m) ++ rest =
          (leBytes 8 p.1.length ++ p.1) ++
            (writeV [] p.2 ++ (wMapBody writeV m ++ rest)) := by
        have h1 : wMapBody writeV (p :: m) =
            List.foldl (fun b q => writeV (wBytes b q.1) q.2)
              (writeV (wBytes [] p.1) p.2) m := rfl
        rw [h1, wMap_foldl_append writeV hVapp m, hVapp (wBytes [] p.1) p.2]
        simp [wBytes, List.append_assoc]
      rw [List.length_cons, hbody]
      simp only [rPairs]
      rw [rBytes_append p.1 _ hhead.1]
      simp only
      rw [hV p.2 _ hhead.2]
      simp only
      rw [ih rest (fun q hq => hWF q (List.mem_cons_of_mem _ hq))]

theorem rMap_roundtrip (writeV : List Nat → α → List Nat)
    (readV : List Nat → Option (α × List Nat)) (WFv : α → Prop)
    (hVapp : ∀ (buf : List Nat) (v : α), writeV buf v = buf ++ writeV [] v)
    (hV : ∀ (v : α) (rest : List Nat), WFv v → readV (writeV [] v ++ rest) = some (v, rest))
    (m : List (List Nat × α)) (rest : List Nat)
    (hlen : m.length < 2 ^ 64)
    (hWF : ∀ p ∈ m, p.1.length < 2 ^ 64 ∧ WFv p.2) :
    rMap readV (wMap writeV [] m ++ rest) = some (m, rest) := by
  rw [wMap_decomp writeV hVapp, List.nil_append, List.append_assoc]
  unfold rMap
  rw [rLE_append]
  have h8 : (256 : Nat) ^ 8 = 2 ^ 64 := by norm_num
  have hm : m.length % 256 ^ 8 = m.length := by
    rw [h8]
    exact Nat.mod_eq_of_lt hlen
  rw [hm]
  exact rPairs_roundtrip writeV readV WFv hVapp hV m rest hWF

/-- TwitchUserCredentials from database.cpp lines 261 to 284: a permission
bitmask and the subscription months. -/
structure TwitchUserCredentials where
  permissions : Nat
  subscriptionMonths : Nat
deriving Repr, DecidableEq, Inhabited

def TwitchUserCredentials.serialise (buf : List Nat) (c : TwitchUserCredentials) :
    List Nat :=
  wU64 (wU64 (wtag buf TAG_TWITCH_USER_CREDS) c.permissions) c.subscriptionMonths

def TwitchUserCredentials.deserialise (buf : List Nat) :
    Option (TwitchUserCredentials × List Nat) :=
  match rtag buf with
  | none => none
  | some (t, r1) =>
      if t ≠ TAG_TWITCH_USER_CREDS then none
      else
        match rLE 8 r1 with
        | none => none
        | some (p, r2) =>
            match rLE 8 r2 with
            | none => none
            | some (sm, r3) => some (⟨p, sm⟩, r3)

def TwitchUserCredentials.WF (c : TwitchUserCredentials) : Prop :=
  c.permissions < 2 ^ 64 ∧ c.subscriptionMonths < 2 ^ 64

/-- TwitchUser from database.cpp lines 227 to 258: id, username, display
name and credentials. -/
structure TwitchUser where
  id : List Nat
  username : List Nat
  displayname : List Nat
  credentials : TwitchUserCredentials
deriving Repr, DecidableEq, Inhabited

def TwitchUser.serialise (buf : List Nat) (u : TwitchUser) : List Nat :=
  TwitchUserCredentials.serialise
    (wBytes (wBytes (wBytes (wtag buf TAG_TWITCH_USER) u.id) u.username) u.displayname)
    u.credentials

def TwitchUser.deserialise (buf : List Nat) : Option (TwitchUser × List Nat) :=
  match rtag buf with
  | none => none
  | some (t, r1) =>
      if t ≠ TAG_TWITCH_USER then none
      else
        match rBytes r1 with
        | none => none
        | some (i, r2) =>
            match rBytes r2 with
            | none => none
            | some (un, r3) =>
                match rBytes r3 with
                | none => none
                | some (dn, r4) =>
                    match TwitchUserCredentials.deserialise r4 with
                    | none => none
                    | some (c, r5) => some (⟨i, un, dn, c⟩, r5)

def TwitchUser.WF (u : TwitchUser) : Prop :=
  u.id.length < 2 ^ 64 ∧ u.username.length < 2 ^ 64 ∧
  u.displayname.length < 2 ^ 64 ∧ u.credentials.WF

/-- Modelled from usage in src (message.cpp lines 208 to 240; db.h is not in
src): the per-channel record of the twitch data, holding the known users of
the channel and their credentials, each keyed by user id. -/
structure TwitchChannel where
  knownUsers : List (List Nat × TwitchUser)
  userCredentials : List (List Nat × TwitchUserCredentials)
deriving Repr, DecidableEq, Inhabited

/-- Modelled from usage in src (markov.cpp lines 203 to 220): one logged
twitch message: the command flag, the (offset, length) reference into the
message data arena, the emote positions and the channel name. -/
structure TwitchMessage where
  isCommand : Bool
  message : Nat × Nat
  emotePositions : List (Nat × Nat)
  channel : List Nat
deriving Repr, DecidableEq, Inhabited

/-- Modelled from usage in src (markov.cpp line 204): the twitch message
log. -/
structure TwitchMessageLog where
  messages : List TwitchMessage
deriving Repr, DecidableEq, Inhabited

/-- The TwitchDB record.  Its first two members are the ones
TwitchDB::serialise writes (database.cpp lines 194 to 218); the channels
map (message.cpp line 213) and the message log (markov.cpp line 204) are
members of the in-memory TwitchDB that serialise never writes and
deserialise leaves default-initialised. -/
structure TwitchDB where
  knownTwitchUsers : List (List Nat × TwitchUser)
  knownTwitchIdMappings : List (List Nat × List Nat)
  channels : List (List Nat × TwitchChannel)
  messageLog : TwitchMessageLog
deriving Repr, DecidableEq, Inhabited

def TwitchDB.serialise (buf : List Nat) (t : TwitchDB) : List Nat :=
  wMap wBytes (wMap TwitchUser.serialise (wtag buf TAG_TWITCH_DB) t.knownTwitchUsers)
    t.knownTwitchIdMappings

def TwitchDB.deserialise (buf : List Nat) : Option (TwitchDB × List Nat) :=
  match rtag buf with
  | none => none
  | some (t, r1) =>
      if t ≠ TAG_TWITCH_DB then none
      else
        match rMap TwitchUser.deserialise r1 with
        | none => none
        | some (us, r2) =>
            match rMap rBytes r2 with
            | none => none
            | some (ms, r3) => some (⟨us, ms, default, default⟩, r3)

def TwitchDB.WF (t : TwitchDB) : Prop :=
  t.knownTwitchUsers.length < 2 ^ 64 ∧
  (∀ p ∈ t.knownTwitchUsers, p.1.length < 2 ^ 64 ∧ p.2.WF) ∧
  t.knownTwitchIdMappings.length < 2 ^ 64 ∧
  (∀ p ∈ t.knownTwitchIdMappings, p.1.length < 2 ^ 64 ∧ p.2.length < 2 ^ 64)

/-- Modelled from the spec: the command interpreter state persisted as one
tagged entity (DbInterpState in cmd.h has no data members; its serialised
payload, written by code outside src, is modelled as an opaque byte string
framed per section 4.A: type tag, then u64 length, then the raw bytes). -/
structure DbInterpState where
  data : List Nat
deriving Repr, DecidableEq, Inhabited

def DbInterpState.serialise (buf : List Nat) (s : DbInterpState) : List Nat :=
  wBytes (wtag buf TAG_INTERP_STATE) s.data

def DbInterpState.deserialise (buf : List Nat) : Option (DbInterpState × List Nat) :=
  match rtag buf with
  | none => none
  | some (t, r1) =>
      if t ≠ TAG_INTERP_STATE then none
      else
        match rBytes r1 with
        | none => none
        | some (d, r2) => some (⟨d⟩, r2)

def DbInterpState.WF (s : DbInterpState) : Prop := s.data.length < 2 ^ 64

/-- Modelled from the spec: the discord message-log data referenced by
markov.cpp (db.discordData); it is a field of the in-memory Database that
Database::serialise never writes. -/
structure DiscordDB where
  messages : List (List Nat)
deriving Repr, DecidableEq, Inhabited

/-- The Database record (declared in db.h, which is not in src; the fields
are those used across src: the superblock fields, twitchData and
interpState written by serialise, and the discordData and messageData
referenced by markov.cpp but never serialised). -/
structure Database where
  magic : List Nat
  version : Nat
  flags : Nat
  timestamp : Nat
  twitchData : TwitchDB
  interpState : DbInterpState
  discordData : DiscordDB
  messageData : List Nat
deriving Repr, DecidableEq, Inhabited

def DB_MAGIC : List Nat := [105, 107, 117, 114, 97, 95, 100, 98]

def DB_VERSION : Nat := 1

/-- Database::create from database.cpp lines 47 to 57: magic, version and
zero flags, with the creation timestamp (the clock reading is the now
parameter) and empty payloads. -/
def Database.create (now : Nat) : Database :=
  { magic := DB_MAGIC
  , version := DB_VERSION
  , flags := 0
  , timestamp := now
  , twitchData := default
  , interpState := default
  , discordData := default
  , messageData := [] }

/-- Database::serialise from database.cpp lines 113 to 127: the superblock
(magic, u32 version, u32 flags, u64 timestamp, little-endian, 24 bytes)
with the timestamp taken from the clock (the now parameter), then the
twitch data, then the command interpreter state. -/
def Database.serialise (db : Database) (now : Nat) : List Nat :=
  let buf : List Nat := db.magic ++ leBytes 4 db.version ++ leBytes 4 db.flags ++
    leBytes 8 now
  let buf := TwitchDB.serialise buf db.twitchData
  DbInterpState.serialise buf db.interpState

/-- The failure cases of Database::deserialise, one per error return. -/
inductive DbError where
  | truncated
  | badMagic
  | badVersion
  | badTwitchData
  | badInterpState
deriving Repr, DecidableEq

/-- Database::deserialise from database.cpp lines 129 to 158: check the
size, the magic and the version of the superblock, take the superblock
fields, then read the twitch data and the command interpreter state; the
fields serialise does not write are default-initialised (Database db;). -/
def Database.deserialise (buf : List Nat) : Except DbError Database :=
  if buf.length < 24 then Except.error DbError.truncated
  else if buf.take 8 ≠ DB_MAGIC then Except.error DbError.badMagic
  else if leVal ((buf.drop 8).take 4) ≠ DB_VERSION then Except.error DbError.badVersion
  else
    match TwitchDB.deserialise (buf.drop 24) with
    | none => Except.error DbError.badTwitchData
    | some (tw, r1) =>
        match DbInterpState.deserialise r1 with
        | none => Except.error DbError.badInterpState
        | some (is, _) =>
            Except.ok
              { magic := buf.take 8
              , version := leVal ((buf.drop 8).take 4)
              , flags := leVal ((buf.drop 12).take 4)
              , timestamp := leVal ((buf.drop 16).take 8)
              , twitchData := tw
              , interpState := is
              , discordData := default
              , messageData := [] }

def Database.WF (db : Database) : Prop :=
  db.magic.length = 8 ∧ db.flags < 2 ^ 32 ∧ db.twitchData.WF ∧ db.interpState.WF

theorem wBytes_append (buf s : List Nat) : wBytes buf s = buf ++ wBytes [] s := by
  simp [wBytes, List.append_assoc]

theorem rLE8_exact (n : Nat) (rest : List Nat) (h : n < 2 ^ 64) :
    rLE 8 (leBytes 8 n ++ rest) = some (n, rest) := by
  rw [rLE_append]
  have h8 : (256 : Nat) ^ 8 = 2 ^ 64 := by norm_num
  rw [h8, Nat.mod_eq_of_lt h]

theorem rLE4_exact (n : Nat) (rest : List Nat) (h : n < 2 ^ 32) :
    rLE 4 (leBytes 4 n ++ rest) = some (n, rest) := by
  rw [rLE_append]
  have h4 : (256 : Nat) ^ 4 = 2 ^ 32 := by norm_num
  rw [h4, Nat.mod_eq_of_lt h]

theorem TwitchUserCredentials.creds_serialise_append (buf : List Nat)
    (c : TwitchUserCredentials) :
    TwitchUserCredentials.serialise buf c = buf ++ TwitchUserCredentials.serialise [] c := by
  simp [TwitchUserCredentials.serialise, wU64, wtag, List.append_assoc]

theorem TwitchUserCredentials.creds_roundtrip (c : TwitchUserCredentials)
    (rest : List Nat) (h : c.WF) :
    TwitchUserCredentials.deserialise (TwitchUserCredentials.serialise [] c ++ rest) =
      some (c, rest) := by
  obtain ⟨h1, h2⟩ := h
  have e : TwitchUserCredentials.serialise [] c ++ rest =
      TAG_TWITCH_USER_CREDS ::
        (leBytes 8 c.permissions ++ (leBytes 8 c.subscriptionMonths ++ rest)) := by
    simp [TwitchUserCredentials.serialise, wU64, wtag, List.append_assoc]
    all_goals decide
  rw [e]
  unfold TwitchUserCredentials.deserialise
  simp only [rtag, ite_not]
  rw [rLE8_exact c.permissions _ h1]
  simp only
  rw [rLE8_exact c.subscriptionMonths _ h2]
  simp

theorem TwitchUser.user_serialise_append (buf : List Nat) (u : TwitchUser) :
    TwitchUser.serialise buf u = buf ++ TwitchUser.serialise [] u := by
  simp [TwitchUser.serialise, TwitchUserCredentials.serialise, wU64, wBytes, wtag,
    List.append_assoc]

theorem TwitchUser.user_roundtrip (u : TwitchUser) (rest : List Nat)
    (h : u.WF) :
    TwitchUser.deserialise (TwitchUser.serialise [] u ++ rest) = some (u, rest) := by
  obtain ⟨h1, h2, h3, h4⟩ := h
  have e : TwitchUser.serialise [] u ++ rest =
      TAG_TWITCH_USER ::
        ((leBytes 8 u.id.length ++ u.id) ++
          ((leBytes 8 u.username.length ++ u.username) ++
            ((leBytes 8 u.displayname.length ++ u.displayname) ++
              (TwitchUserCredentials.serialise [] u.credentials ++ rest)))) := by
    simp [TwitchUser.serialise, TwitchUserCredentials.serialise, wU64, wBytes, wtag,
      List.append_assoc]
    all_goals decide
  rw [e]
  unfold TwitchUser.deserialise
  simp only [rtag, ite_not]
  rw [rBytes_append u.id _ h1]
  simp only
  rw [rBytes_append u.username _ h2]
  simp only
  rw [rBytes_append u.displayname _ h3]
  simp only
  rw [TwitchUserCredentials.creds_roundtrip u.credentials rest h4]
  simp

theorem TwitchDB.twitchdb_serialise_append (buf : List Nat) (t : TwitchDB) :
    TwitchDB.serialise buf t = buf ++ TwitchDB.serialise [] t := by
  simp only [TwitchDB.serialise,
    wMap_decomp wBytes wBytes_append,
    wMap_decomp TwitchUser.serialise TwitchUser.user_serialise_append,
    wtag, List.append_assoc, List.nil_append]

theorem TwitchDB.twitchdb_roundtrip (t : TwitchDB) (rest : List Nat)
    (h : t.WF) :
    TwitchDB.deserialise (TwitchDB.serialise [] t ++ rest) =
      some ({ t with channels := default, messageLog := default }, rest) := by
  obtain ⟨h1, h2, h3, h4⟩ := h
  have e : TwitchDB.serialise [] t ++ rest =
      TAG_TWITCH_DB ::
        (wMap TwitchUser.serialise [] t.knownTwitchUsers ++
          (wMap wBytes [] t.knownTwitchIdMappings ++ rest)) := by
    simp only [TwitchDB.serialise,
      wMap_decomp wBytes wBytes_append,
      wMap_decomp TwitchUser.serialise TwitchUser.user_serialise_append,
      wtag, List.append_assoc, List.nil_append]
    rfl
  rw [e]
  unfold TwitchDB.deserialise
  simp only [rtag, ite_not]
  rw [rMap_roundtrip TwitchUser.serialise TwitchUser.deserialise TwitchUser.WF
    TwitchUser.user_serialise_append
    (fun v r hv => TwitchUser.user_roundtrip v r hv)
    t.knownTwitchUsers _ h1 h2]
  simp only
  rw [rMap_roundtrip wBytes rBytes (fun s => s.length < 2 ^ 64)
    wBytes_append
    (fun v r hv => by
      have : wBytes [] v ++ r = (leBytes 8 v.length ++ v) ++ r := by
        simp [wBytes]
      rw [this]
      exact rBytes_append v r hv)
    t.knownTwitchIdMappings _ h3 h4]
  simp

theorem DbInterpState.interp_serialise_append (buf : List Nat) (s : DbInterpState) :
    DbInterpState.serialise buf s = buf ++ DbInterpState.serialise [] s := by
  simp [DbInterpState.serialise, wBytes, wtag, List.append_assoc]

theorem DbInterpState.interp_roundtrip (s : DbInterpState) (rest : List Nat)
    (h : s.WF) :
    DbInterpState.deserialise (DbInterpState.serialise [] s ++ rest) = some (s, rest) := by
  have e : DbInterpState.serialise [] s ++ rest =
      TAG_INTERP_STATE :: ((leBytes 8 s.data.length ++ s.data) ++ rest) := by
    simp [DbInterpState.serialise, wBytes, wtag, List.append_assoc]
    all_goals decide
  rw [e]
  unfold DbInterpState.deserialise
  simp only [rtag, ite_not]
  rw [rBytes_append s.data rest h]
  simp

theorem Database.serialise_decomp (db : Database) (now : Nat) :
    Database.serialise db now =
      db.magic ++ (leBytes 4 db.version ++ (leBytes 4 db.flags ++ (leBytes 8 now ++
        (TwitchDB.serialise [] db.twitchData ++
          DbInterpState.serialise [] db.interpState)))) := by
  unfold Database.serialise
  rw [DbInterpState.interp_serialise_append, TwitchDB.twitchdb_serialise_append]
  simp [List.append_assoc]

theorem Database.db_roundtrip (db : Database) (now : Nat) (hWF : db.WF)
    (hmagic : db.magic = DB_MAGIC) (hver : db.version = DB_VERSION)
    (hnow : now < 2 ^ 64) :
    Database.deserialise (Database.serialise db now) =
      Except.ok { db with
                  timestamp := now
                  , twitchData := { db.twitchData with
                                    channels := default, messageLog := default }
                  , discordData := default, messageData := [] } := by
  obtain ⟨hm8, hf, htw, his⟩ := hWF
  have hd := Database.serialise_decomp db now
  have h8 := take_drop_exact 8 db.magic
    (leBytes 4 db.version ++ (leBytes 4 db.flags ++ (leBytes 8 now ++
      (TwitchDB.serialise [] db.twitchData ++ DbInterpState.serialise [] db.interpState))))
    hm8
  have h12 := take_drop_exact 12 (db.magic ++ leBytes 4 db.version)
    (leBytes 4 db.flags ++ (leBytes 8 now ++
      (TwitchDB.serialise [] db.twitchData ++ DbInterpState.serialise [] db.interpState)))
    (by simp [hm8, leBytes_length])
  have h16 := take_drop_exact 16 ((db.magic ++ leBytes 4 db.version) ++ leBytes 4 db.flags)
    (leBytes 8 now ++
      (TwitchDB.serialise [] db.twitchData ++ DbInterpState.serialise [] db.interpState))
    (by simp [hm8, leBytes_length])
  have h24 := take_drop_exact 24
    (((db.magic ++ leBytes 4 db.version) ++ leBytes 4 db.flags) ++ leBytes 8 now)
    (TwitchDB.serialise [] db.twitchData ++ DbInterpState.serialise [] db.interpState)
    (by simp [hm8, leBytes_length])
  have hassoc12 : Database.serialise db now =
      (db.magic ++ leBytes 4 db.version) ++
        (leBytes 4 db.flags ++ (leBytes 8 now ++
          (TwitchDB.serialise [] db.twitchData ++
            DbInterpState.serialise [] db.interpState))) := by
    rw [hd]
    simp [List.append_assoc]
  have hassoc16 : Database.serialise db now =
      ((db.magic ++ leBytes 4 db.version) ++ leBytes 4 db.flags) ++
        (leBytes 8 now ++
          (TwitchDB.serialise [] db.twitchData ++
            DbInterpState.serialise [] db.interpState)) := by
    rw [hd]
    simp [List.append_assoc]
  have hassoc24 : Database.serialise db now =
      (((db.magic ++ leBytes 4 db.version) ++ leBytes 4 db.flags) ++ leBytes 8 now) ++
        (TwitchDB.serialise [] db.twitchData ++
          DbInterpState.serialise [] db.interpState) := by
    rw [hd]
    simp [List.append_assoc]
  have hverlt : db.version < 2 ^ 32 := by
    rw [hver]
    norm_num [DB_VERSION]
  have htake8 : (Database.serialise db now).take 8 = db.magic := by
    rw [hd]
    exact h8.1
  have hdrop8 : (Database.serialise db now).drop 8 =
      leBytes 4 db.version ++ (leBytes 4 db.flags ++ (leBytes 8 now ++
        (TwitchDB.serialise [] db.twitchData ++
          DbInterpState.serialise [] db.interpState))) := by
    rw [hd]
    exact h8.2
  have hversionField : leVal (((Database.serialise db now).drop 8).take 4) = db.version := by
    rw [hdrop8, (take_drop_exact 4 (leBytes 4 db.version) _ (leBytes_length 4 db.version)).1]
    have h4 : (256 : Nat) ^ 4 = 2 ^ 32 := by norm_num
    rw [leVal_leBytes, h4, Nat.mod_eq_of_lt hverlt]
  have hflagsField : leVal (((Database.serialise db now).drop 12).take 4) = db.flags := by
    rw [hassoc12, h12.2,
      (take_drop_exact 4 (leBytes 4 db.flags) _ (leBytes_length 4 db.flags)).1]
    have h4 : (256 : Nat) ^ 4 = 2 ^ 32 := by norm_num
    rw [leVal_leBytes, h4, Nat.mod_eq_of_lt hf]
  have htsField : leVal (((Database.serialise db now).drop 16).take 8) = now := by
    rw [hassoc16, h16.2,
      (take_drop_exact 8 (leBytes 8 now) _ (leBytes_length 8 now)).1]
    have h8p : (256 : Nat) ^ 8 = 2 ^ 64 := by norm_num
    rw [leVal_leBytes, h8p, Nat.mod_eq_of_lt hnow]
  have hdrop24 : (Database.serialise db now).drop 24 =
      TwitchDB.serialise [] db.twitchData ++ DbInterpState.serialise [] db.interpState := by
    rw [hassoc24]
    exact h24.2
  have hlen : ¬ (Database.serialise db now).length < 24 := by
    rw [hd]
    simp only [List.length_append, hm8, leBytes_length, not_lt]
    omega
  unfold Database.deserialise
  rw [if_neg hlen, if_neg (by rw [htake8, hmagic]; simp),
    if_neg (by rw [hversionField, hver]; simp)]
  rw [hdrop24, TwitchDB.twitchdb_roundtrip db.twitchData _ htw]
  simp only
  have hisr : DbInterpState.deserialise (DbInterpState.serialise [] db.interpState) =
      some (db.interpState, []) := by
    have := DbInterpState.interp_roundtrip db.interpState [] his
    simpa using this
  rw [hisr]
  simp only
  rw [htake8, hversionField, hflagsField, htsField]

theorem Database.serialise_timestamp_mod (db : Database) (now : Nat) :
    Database.serialise db (now % 2 ^ 64) = Database.serialise db now := by
  rw [Database.serialise_decomp, Database.serialise_decomp]
  have h8 : (2 : Nat) ^ 64 = 256 ^ 8 := by norm_num
  rw [h8, leBytes_mod]

theorem Database.create_WF (now : Nat) : (Database.create now).WF := by
  refine ⟨rfl, ?_, ⟨?_, ?_, ?_, ?_⟩, ?_⟩
  · show (0 : Nat) < 2 ^ 32
    norm_num
  · show ([] : List (List Nat × TwitchUser)).length < 2 ^ 64
    norm_num
  · intro p hp
    cases hp
  · show ([] : List (List Nat × List Nat)).length < 2 ^ 64
    norm_num
  · intro p hp
    cases hp
  · show ([] : List Nat).length < 2 ^ 64
    norm_num

theorem Database.create_roundtrip_ok (now : Nat) :
    ∃ db2, Database.deserialise
      (Database.serialise (Database.create now) now) = Except.ok db2 := by
  rw [← Database.serialise_timestamp_mod]
  exact ⟨_, Database.db_roundtrip (Database.create now) (now % 2 ^ 64)
    (Database.create_WF now) rfl rfl (Nat.mod_lt now (by norm_num))⟩

theorem Database.serialise_not_empty (db : Database) (now : Nat) :
    (Database.serialise db now).isEmpty = false := by
  rw [Database.serialise_decomp]
  cases hm : db.magic with
  | nil => simp [leBytes]
  | cons a l => simp

/-- load from database.cpp lines 67 to 111: when the file is missing and
create is set, createNewDatabase writes a fresh Database into the global
state and syncs it to disk; then the file is mapped (an empty or unmappable
file fails the load), deserialised, and only on success is the global state
replaced with the decoded Database and true returned.  The file is the
optional byte content, g the global state, now the clock reading. -/
def load (file : Option (List Nat)) (create : Bool) (g : Option Database)
    (now : Nat) : Bool × Option Database :=
  match file with
  | none =>
      if create then
        let db := Database.create now
        let bytes := Database.serialise db now
        if bytes.isEmpty then (false, some db)
        else
          match Database.deserialise bytes with
          | Except.ok db2 => (true, some db2)
          | Except.error _ => (false, some db)
      else (false, g)
  | some bytes =>
      if bytes.isEmpty then (false, g)
      else
        match Database.deserialise bytes with
        | Except.ok db2 => (true, some db2)
        | Except.error _ => (false, g)

/-- Claim C3: decoding failures leave the global state untouched.  First,
whenever deserialise fails on the file content, load returns false and the
global state g is unchanged.  Second, a superblock whose magic is correct
but whose version differs from DB_VERSION fails with the dedicated
version-mismatch diagnostic.  Third, whenever load returns false the global
state is unchanged, and whenever it returns true the state was replaced by
a successfully decoded Database: the state is replaced only when decoding
succeeds. -/
theorem claim_c3_load_failure_preserves_state :
    (∀ (bytes : List Nat) (create : Bool) (g : Option Database) (now : Nat) (e : DbError),
      Database.deserialise bytes = Except.error e →
      load (some bytes) create g now = (false, g)) ∧
    (∀ bytes : List Nat, ¬ bytes.length < 24 → bytes.take 8 = DB_MAGIC →
      leVal ((bytes.drop 8).take 4) ≠ DB_VERSION →
      Database.deserialise bytes = Except.error DbError.badVersion) ∧
    (∀ (file : Option (List Nat)) (create : Bool) (g : Option Database) (now : Nat),
      ((load file create g now).1 = false → (load file create g now).2 = g) ∧
      ((load file create g now).1 = true →
        ∃ (bytes : List Nat) (db2 : Database),
          Database.deserialise bytes = Except.ok db2 ∧
          (load file create g now).2 = some db2)) := by
  refine ⟨?_, ?_, ?_⟩
  · intro bytes create g now e hd
    unfold load
    by_cases hb : bytes.isEmpty
    · simp [hb]
    · simp [hb, hd]
  · intro bytes h1 h2 h3
    unfold Database.deserialise
    rw [if_neg h1, if_neg (by rw [h2]; simp), if_pos h3]
  · intro file create g now
    match file with
    | none =>
        by_cases hc : create
        · have hne := Database.serialise_not_empty (Database.create now) now
          obtain ⟨db2, hok⟩ := Database.create_roundtrip_ok now
          constructor
          · intro hfalse
            exfalso
            unfold load at hfalse
            rw [if_pos hc] at hfalse
            simp only [hne] at hfalse
            rw [hok] at hfalse
            simp at hfalse
          · intro _
            refine ⟨Database.serialise (Database.create now) now, db2, hok, ?_⟩
            unfold load
            rw [if_pos hc]
            simp only [hne]
            rw [hok]
            simp
        · constructor
          · intro _
            unfold load
            rw [if_neg hc]
          · intro htrue
            exfalso
            unfold load at htrue
            rw [if_neg hc] at htrue
            cases htrue
    | some bytes =>
        by_cases hb : bytes.isEmpty
        · constructor
          · intro _
            unfold load
            simp [hb]
          · intro htrue
            exfalso
            unfold load at htrue
            simp [hb] at htrue
        · cases hd : Database.deserialise bytes with
          | ok db2 =>
              constructor
              · intro hfalse
                exfalso
                unfold load at hfalse
                simp only [hb, Bool.false_eq_true, if_false] at hfalse
                rw [hd] at hfalse
                cases hfalse
              · intro _
                refine ⟨bytes, db2, hd, ?_⟩
                unfold load
                simp only [hb, Bool.false_eq_true, if_false]
                rw [hd]
          | error e =>
              constructor
              · intro _
                unfold load
                simp only [hb, Bool.false_eq_true, if_false]
                rw [hd]
              · intro htrue
                exfalso
                unfold load at htrue
                simp only [hb, Bool.false_eq_true, if_false] at htrue
                rw [hd] at htrue
                cases htrue

/-- Claim C1 (amended): deserialising the bytes produced by serialising a
well-formed Database (correct magic, current version, fields within their
integer widths) yields the same Database in every serialised field (magic,
version, flags, the two twitch maps, the command interpreter state), except
that the timestamp is replaced by the serialisation-time clock reading (the
superblock is stamped with getMillisecondTimestamp, not with the stored
timestamp) and every field serialise never writes comes back
default-initialised: the discord data, the message data, and the channels
map and message log inside the twitch data. -/
theorem claim_c1_roundtrip_amended (db : Database) (now : Nat) (hWF : db.WF)
    (hmagic : db.magic = DB_MAGIC) (hver : db.version = DB_VERSION)
    (hnow : now < 2 ^ 64) :
    Database.deserialise (Database.serialise db now) =
      Except.ok { db with
                  timestamp := now
                  , twitchData := { db.twitchData with
                                    channels := default, messageLog := default }
                  , discordData := default, messageData := [] } :=
  Database.db_roundtrip db now hWF hmagic hver hnow

/-- Witness for claim C1: a freshly created database serialised at clock
reading 7 decodes back with timestamp 7. -/
theorem claim_c1_roundtrip_amended_witness :
    ((Database.create 5).WF ∧ (Database.create 5).magic = DB_MAGIC ∧
      (Database.create 5).version = DB_VERSION ∧ (7 : Nat) < 2 ^ 64) ∧
    Database.deserialise (Database.serialise (Database.create 5) 7) =
      Except.ok { (Database.create 5) with
                  timestamp := 7
                  , twitchData := { (Database.create 5).twitchData with
                                    channels := default, messageLog := default }
                  , discordData := default, messageData := [] } :=
  ⟨⟨Database.create_WF 5, rfl, rfl, by norm_num⟩,
   claim_c1_roundtrip_amended (Database.create 5) 7 (Database.create_WF 5) rfl rfl
     (by norm_num)⟩

instance : DecidableEq (Except DbError Database) :=
  fun a b =>
    match a, b with
    | Except.ok x, Except.ok y => decidable_of_iff (x = y) (by simp)
    | Except.error x, Except.error y => decidable_of_iff (x = y) (by simp)
    | Except.ok _, Except.error _ => isFalse (fun h => by cases h)
    | Except.error _, Except.ok _ => isFalse (fun h => by cases h)

/-- The concrete database refuting claim C1 as stated: stored timestamp 5,
one twitch channel record, one logged twitch message, one discord message,
one byte of message data, serialised at clock reading 7. -/
def dbC1 : Database :=
  { Database.create 5 with
    twitchData := { knownTwitchUsers := []
                    , knownTwitchIdMappings := []
                    , channels := [([99], ⟨[], []⟩)]
                    , messageLog := ⟨[⟨false, (0, 1), [], [104]⟩]⟩ }
    , discordData := ⟨[[99]]⟩, messageData := [104] }

/-- Claim C1 counterexample: the round trip does not return dbC1; the
superblock timestamp is taken from the clock at serialisation time (7, not
the stored 5), and the twitch channels map, the twitch message log, the
discord data and the message data are dropped entirely, so
deserialise(serialise(x)) differs from x in all those fields. -/
theorem claim_c1_counterexample :
    Database.deserialise (Database.serialise dbC1 7) ≠ Except.ok dbC1 ∧
    Database.deserialise (Database.serialise dbC1 7) =
      Except.ok { dbC1 with
                  timestamp := 7
                  , twitchData := { knownTwitchUsers := []
                                    , knownTwitchIdMappings := []
                                    , channels := [], messageLog := ⟨[]⟩ }
                  , discordData := ⟨[]⟩, messageData := [] } := by
  constructor
  · decide
  · decide

/-- Witness for claim C3: a 24-byte superblock with correct magic and
version 999 fails the load with the version-mismatch diagnostic and leaves
the global state (a database created at clock 5) unchanged. -/
theorem claim_c3_load_failure_preserves_state_witness :
    (Database.deserialise (DB_MAGIC ++ (leBytes 4 999 ++ (leBytes 4 0 ++ leBytes 8 0))) =
      Except.error DbError.badVersion) ∧
    (load (some (DB_MAGIC ++ (leBytes 4 999 ++ (leBytes 4 0 ++ leBytes 8 0)))) false
      (some (Database.create 5)) 7 = (false, some (Database.create 5))) :=
  ⟨claim_c3_load_failure_preserves_state.2.1
      (DB_MAGIC ++ (leBytes 4 999 ++ (leBytes 4 0 ++ leBytes 8 0)))
      (by decide) (by decide) (by decide),
   claim_c3_load_failure_preserves_state.1
      (DB_MAGIC ++ (leBytes 4 999 ++ (leBytes 4 0 ++ leBytes 8 0)))
      false (some (Database.create 5)) 7 DbError.badVersion
      (claim_c3_load_failure_preserves_state.2.1
        (DB_MAGIC ++ (leBytes 4 999 ++ (leBytes 4 0 ++ leBytes 8 0)))
        (by decide) (by decide) (by decide))⟩

/-- Modelled from the spec: the payload layout asserted by claim C4 (and
section 6 of the spec): after the superblock, four tagged payloads in the
order twitch data, discord data, command interpreter state, markov data,
each beginning with its entity tag. -/
def claimedPayloadLayout (db : Database) (now : Nat) : Prop :=
  ∃ p1 p2 p3 p4 : List Nat,
    Database.serialise db now =
      (db.magic ++ leBytes 4 db.version ++ leBytes 4 db.flags ++ leBytes 8 now) ++
        (p1 ++ (p2 ++ (p3 ++ p4))) ∧
    p1.head? = some TAG_TWITCH_DB ∧ p2.head? = some TAG_DISCORD_DB ∧
    p3.head? = some TAG_INTERP_STATE ∧ p4.head? = some TAG_MARKOV_DB

theorem head_mem_of_head_eq {a : Nat} {l : List Nat} (h : l.head? = some a) :
    a ∈ l := by
  cases l with
  | nil => cases h
  | cons b t =>
      injection h with h
      rw [← h]
      exact List.mem_cons_self b t

/-- Claim C4 counterexample: for a freshly created database serialised at
clock reading 7 there is no decomposition of the output into superblock
plus four payloads led by the twitch, discord, interpreter and markov
tags: the discord tag byte does not occur anywhere after the superblock,
because Database::serialise writes only the twitch data and the command
interpreter state. -/
theorem claim_c4_counterexample : ¬ claimedPayloadLayout (Database.create 5) 7 := by
  rintro ⟨p1, p2, p3, p4, heq, h1, h2, h3, h4⟩
  have hsb : ((Database.create 5).magic ++ leBytes 4 (Database.create 5).version ++
      leBytes 4 (Database.create 5).flags ++ leBytes 8 7).length = 24 := by decide
  have hdrop := (take_drop_exact 24 _ (p1 ++ (p2 ++ (p3 ++ p4))) hsb).2
  rw [← heq] at hdrop
  have hmem : TAG_DISCORD_DB ∈ (Database.serialise (Database.create 5) 7).drop 24 := by
    rw [hdrop]
    have hm := head_mem_of_head_eq h2
    simp only [List.mem_append]
    exact Or.inr (Or.inl hm)
  have hno : TAG_DISCORD_DB ∉ (Database.serialise (Database.create 5) 7).drop 24 := by
    decide
  exact hno hmem

theorem TwitchDB.twitchdb_serialise_head (t : TwitchDB) :
    (TwitchDB.serialise [] t).head? = some TAG_TWITCH_DB := by
  simp only [TwitchDB.serialise,
    wMap_decomp wBytes wBytes_append,
    wMap_decomp TwitchUser.serialise TwitchUser.user_serialise_append,
    wtag, List.nil_append, List.append_assoc]
  rfl

theorem DbInterpState.interp_serialise_head (s : DbInterpState) :
    (DbInterpState.serialise [] s).head? = some TAG_INTERP_STATE := by
  simp only [DbInterpState.serialise, wBytes, wtag, List.nil_append, List.append_assoc]
  rfl

/-- Claim C4 (amended): serialising the Database writes, after the
superblock, exactly two tagged payloads, in this order: the twitch data
(led by its tag) and the command interpreter state (led by its tag); no
discord payload and no markov payload are written, their tags being
distinct from the two that appear. -/
theorem claim_c4_amended_payload_order (db : Database) (now : Nat) :
    Database.serialise db now =
      (db.magic ++ leBytes 4 db.version ++ leBytes 4 db.flags ++ leBytes 8 now) ++
        (TwitchDB.serialise [] db.twitchData ++
          DbInterpState.serialise [] db.interpState) ∧
    (TwitchDB.serialise [] db.twitchData).head? = some TAG_TWITCH_DB ∧
    (DbInterpState.serialise [] db.interpState).head? = some TAG_INTERP_STATE ∧
    TAG_TWITCH_DB ≠ TAG_DISCORD_DB ∧ TAG_INTERP_STATE ≠ TAG_DISCORD_DB ∧
    TAG_INTERP_STATE ≠ TAG_MARKOV_DB := by
  refine ⟨?_, TwitchDB.twitchdb_serialise_head _, DbInterpState.interp_serialise_head _,
    by decide, by decide, by decide⟩
  rw [Database.serialise_decomp]
  simp [List.append_assoc]

end Db
